import Mathlib

/-!
# MC-Bot: a verification development

A shallow embedding of the orchestration code of the three entry points of the
repository (`src/speedrunbot.js`, `src/Improvedbot.js`, `src/bot.js`) and the
properties established about it.

Conventions of the embedding.

* Every class of the sources becomes a namespace named after the file and the
  class; every method becomes a definition of the same name.
* A property of a JavaScript object that the code compares with a string
  literal by `===` is an `Option String`: `some s` when the property holds the
  string `s`, `none` when it is absent or holds anything that is not a string.
* Calls into code that the sources do not define (the mineflayer bot object and
  its plugins, helper methods that are only called) are parameters of the
  embedding, gathered in an environment record.
-/

namespace MCBot

/-! ## JavaScript values seen by the code -/

/-- An entity handed to the combat code: only the properties the sources read. -/
structure Entity where
  /-- The property `name`. -/
  name : Option String
  /-- The property `type`. -/
  type : Option String
  deriving DecidableEq, Repr

/-- A JavaScript number as the comparison `<` sees it. `nan` also stands for a value that
converts to NaN, such as `undefined`. -/
inductive JSNum where
  /-- The value NaN. -/
  | nan
  /-- The value -Infinity. -/
  | negInf
  /-- A finite number. -/
  | fin (q : ℚ)
  /-- The value +Infinity. -/
  | posInf
  deriving DecidableEq, Repr

/-- The comparison `a < b` of two numbers: false as soon as one side is NaN. -/
def JSNum.lt : JSNum → JSNum → Bool
  | .nan, _ => false
  | _, .nan => false
  | _, .negInf => false
  | .negInf, _ => true
  | .posInf, _ => false
  | .fin _, .posInf => true
  | .fin a, .fin b => decide (a < b)

/-- A block position, `Vec3` with integer coordinates. -/
structure Vec3 where
  /-- The coordinate `x`. -/
  x : Int
  /-- The coordinate `y`. -/
  y : Int
  /-- The coordinate `z`. -/
  z : Int
  deriving DecidableEq, Repr

/-- A block object returned by `bot.blockAt`. -/
structure Block where
  /-- The property `name`. -/
  name : String
  /-- The property `position`. -/
  position : Vec3
  deriving DecidableEq, Repr

/-- A thrown value, as far as the code inspects it. -/
structure JSError where
  /-- The property `code`, when it is a string. -/
  code : Option String
  /-- The property `message`. -/
  message : String
  deriving DecidableEq, Repr

/-! ## Sequential code with effects

A method body is a function from the state it runs in to how it completes, the state it
leaves, and the trace of the calls it made. `await` on a rejected promise and `throw` are the
same thing here: the completion `throw`. -/

/-- What a trace records: calls that leave the code under study, with the values they were
given or returned, and the entry into the methods the claims speak about. -/
inductive Event where
  /-- A call of `console.log` or `console.error` with this first argument. -/
  | console (text : String)
  /-- The call `this.bot.inventory.count(item)` and the number it returned. -/
  | inventoryCount (item : String) (result : Nat)
  /-- Entry into `collectResource(itemName, amount)`. -/
  | collectResource (itemName : String) (amount : Nat)
  /-- Entry into `mineBlock(position)`. -/
  | mineBlock (position : Vec3)
  /-- The call `this.bot.tool.equipForBlock(block)`; `none` is `null`. -/
  | equipForBlock (block : Option Block)
  /-- The call `this.bot.dig(block)`; `none` is `null`. -/
  | dig (block : Option Block)
  /-- The call `this.useHealthItems()`. -/
  | useHealthItems
  /-- The call `this.retreatToSafety()`. -/
  | retreatToSafety
  /-- The call `this.bot.autoEat.eat()`. -/
  | eat
  /-- The call `this.bot.pathfinder.avoidDanger()`. -/
  | avoidDanger
  /-- The call `setTimeout(callback, ms)`. -/
  | setTimeout (ms : Nat)
  /-- The call `mineflayer.createBot(botOptions)`. -/
  | createBot
  /-- The call `this.name(...)` of a method that the class of `this` does not define. -/
  | helper (name : String)
  /-- Entry into a phase method of `AISpeedrunBot`. -/
  | enter (method : String)
  /-- The call `this.findNearestStructure(kind)`. -/
  | findNearestStructure (kind : String)
  /-- The call `this.bot.pathfinder.setMovements(movements)`. -/
  | setMovements
  /-- The call `this.bot.pathfinder.setGoal(goal)` with a `GoalBlock` at this position. -/
  | setGoal (goal : Vec3)
  /-- The call `this.executeStrategy(strategy, target)`. -/
  | executeStrategy (strategy : String) (target : Entity)
  /-- The call `this[method]()` of `ImprovedSpeedrunBot.executeSpeedrunPhases`, with the value
  `state.currentPhase` has when the call is made; `none` is `null`. -/
  | invoke (method : String) (currentPhase : Option String)
  /-- The call `this.bot.pvp.attack(target)`. -/
  | attack (target : Entity)
  /-- The call `new BedPlacer(this.bot)`. -/
  | newBedPlacer
  /-- The call `bedPlacer.placeBedNearDragon(dragon)`. -/
  | placeBedNearDragon (dragon : Entity)
  /-- The start of one turn of the loop of a combat strategy, with the values of `target.health`
  and `this.isInCombat` that the test of the loop has just read. -/
  | cycle (health : JSNum) (isInCombat : Bool)
  deriving DecidableEq, Repr

/-- How a piece of code completes. -/
inductive Completion (α : Type) where
  /-- Normal completion with a value. -/
  | normal (value : α)
  /-- Abrupt completion: an exception, or the rejection of an awaited promise. -/
  | throw (error : JSError)
  deriving DecidableEq, Repr

/-- The outcome of running a piece of code from a state. -/
structure Result (σ α : Type) where
  /-- How it completed. -/
  completion : Completion α
  /-- The state it left. -/
  state : σ
  /-- The calls it made, oldest first. -/
  trace : List Event

/-- A piece of sequential code over states `σ` that yields an `α`. -/
def Eff (σ α : Type) : Type := σ → Result σ α

namespace Eff

variable {σ α β : Type}

/-- Completing normally with a value, no effect. -/
def ret (a : α) : Eff σ α := fun s => ⟨.normal a, s, []⟩

/-- Sequencing: the second part runs only when the first completes normally. -/
def andThen (x : Eff σ α) (f : α → Eff σ β) : Eff σ β := fun s =>
  match (x s).completion with
  | .normal a =>
    ⟨(f a (x s).state).completion, (f a (x s).state).state,
      (x s).trace ++ (f a (x s).state).trace⟩
  | .throw e => ⟨.throw e, (x s).state, (x s).trace⟩

instance : Monad (Eff σ) where
  pure := ret
  bind := andThen

/-- Recording one event. -/
def emit (e : Event) : Eff σ Unit := fun s => ⟨.normal (), s, [e]⟩

/-- Reading a value off the state by a synchronous query that has no effect. -/
def read (f : σ → α) : Eff σ α := fun s => ⟨.normal (f s), s, []⟩

/-- Reading the whole state. -/
def getState : Eff σ σ := fun s => ⟨.normal s, s, []⟩

/-- An assignment to fields of the state. -/
def update (f : σ → σ) : Eff σ Unit := fun s => ⟨.normal (), f s, []⟩

/-- A synchronous query that has no effect, recorded in the trace with the value it
returned. -/
def query (f : σ → α) (e : α → Event) : Eff σ α := fun s => ⟨.normal (f s), s, [e (f s)]⟩

/-- A call that leaves the code under study: the event is recorded, then the callee decides the
completion and the state. -/
def call (e : Event) (callee : σ → Completion α × σ) : Eff σ α := fun s =>
  ⟨(callee s).1, (callee s).2, [e]⟩

/-- The statement `try { body } catch (error) { handler }`. -/
def tryCatch (body : Eff σ α) (handler : JSError → Eff σ α) : Eff σ α := fun s =>
  match (body s).completion with
  | .normal a => ⟨.normal a, (body s).state, (body s).trace⟩
  | .throw e =>
    ⟨(handler e (body s).state).completion, (handler e (body s).state).state,
      (body s).trace ++ (handler e (body s).state).trace⟩

/-- The statement `for (const x of xs) { body }` over an array that the body does not change. -/
def forOf (xs : List α) (body : α → Eff σ Unit) : Eff σ Unit :=
  match xs with
  | [] => ret ()
  | x :: rest => andThen (body x) (fun _ => forOf rest body)

/-- Every event that the code records, from whatever state it starts, satisfies `P`. -/
def TraceAll (P : Event → Prop) (x : Eff σ α) : Prop :=
  ∀ s : σ, ∀ e ∈ (x s).trace, P e

end Eff

/-- An event is not the entry into a phase method. -/
def Event.NotEnter (e : Event) : Prop :=
  ∀ method : String, e ≠ .enter method

/-- An event is one of the calls that the checks of `SurvivalAI.maintainSafety` make. -/
def Event.isSurvivalReaction : Event → Bool
  | .useHealthItems => true
  | .retreatToSafety => true
  | .eat => true
  | .avoidDanger => true
  | _ => false

/-- An event is a call `this[method]()` of `ImprovedSpeedrunBot.executeSpeedrunPhases`. -/
def Event.isInvoke : Event → Bool
  | .invoke _ _ => true
  | _ => false

/-- An event is the start of a turn of a combat loop. -/
def Event.isCycle : Event → Bool
  | .cycle _ _ => true
  | _ => false

/-- A number is greater than 0, as a proposition: it is +Infinity or a finite number greater
than 0; NaN and -Infinity are not. -/
def JSNum.Positive : JSNum → Prop
  | .posInf => True
  | .fin q => 0 < q
  | .nan => False
  | .negInf => False

/-- The statement `while (test) { body }`, run with a bound on the number of times the test is
evaluated: `none` when the bound is reached before the loop has ended. An exception in the body
ends the loop. -/
def whileLoop {σ : Type} (test : σ → Bool) (body : Eff σ Unit) :
    Nat → σ → Option (Result σ Unit)
  | 0, _ => none
  | fuel + 1, s =>
    if test s then
      match (body s).completion with
      | .normal _ =>
        (whileLoop test body fuel (body s).state).map
          (fun r => ⟨r.completion, r.state, (body s).trace ++ r.trace⟩)
      | .throw e => some ⟨.throw e, (body s).state, (body s).trace⟩
    else some ⟨.normal (), s, []⟩

/-- A call followed by a loop: the loop runs only when the call completes normally. -/
def callThenLoop {σ : Type} (e : Event) (callee : σ → Completion Unit × σ)
    (loop : σ → Option (Result σ Unit)) (s : σ) : Option (Result σ Unit) :=
  match (callee s).1 with
  | .normal _ =>
    (loop (callee s).2).map (fun r => ⟨r.completion, r.state, e :: r.trace⟩)
  | .throw err => some ⟨.throw err, (callee s).2, [e]⟩

/-- The number of turns of a combat loop that a trace records. -/
def cycles (trace : List Event) : Nat :=
  trace.countP Event.isCycle

/-- An asynchronous call into the bot or into a helper the sources do not define: it may
complete normally or reject, and it may change the state. -/
abbrev Action (σ : Type) : Type := σ → Completion Unit × σ

/-- The argument `matching` of `bot.findBlocks`. -/
inductive Matching where
  /-- A block id. -/
  | id (blockID : Nat)
  /-- A predicate on a block, which reads only the name of the block. -/
  | byName (test : String → Bool)

/-- What `src/speedrunbot.js` calls and does not define: the mineflayer bot with its plugins,
the table of `minecraft-data`, and the helpers of its own classes that are only called. -/
structure Speedrunbot.Env (σ : Type) where
  /-- The property `bot.health`. -/
  health : σ → JSNum
  /-- The property `bot.food`. -/
  food : σ → JSNum
  /-- The call `bot.inventory.count(item)`. -/
  inventoryCount : σ → String → Nat
  /-- The lookup `mcData.blocksByName[itemName]?.id`; `none` is `undefined`. -/
  blocksByName : String → Option Nat
  /-- The call `bot.findBlocks` with `matching`, `maxDistance` and `count`; `count` is `none` when
  the option is not given. -/
  findBlocks : σ → Matching → Nat → Option Nat → List Vec3
  /-- The call `bot.blockAt(position)`; `none` is `null`. -/
  blockAt : σ → Vec3 → Option Block
  /-- The call `bot.tool.equipForBlock(block)`. -/
  equipForBlock : Option Block → Action σ
  /-- The call `bot.dig(block)`. -/
  dig : Option Block → Action σ
  /-- The call `this.useHealthItems()` of `SurvivalAI`. -/
  useHealthItems : Action σ
  /-- The call `this.retreatToSafety()` of `SurvivalAI`. -/
  retreatToSafety : Action σ
  /-- The call `bot.autoEat.eat()`. -/
  eat : Action σ
  /-- The call `bot.pathfinder.avoidDanger()`. -/
  avoidDanger : Action σ
  /-- The call `performance.now()`. -/
  now : σ → ℚ
  /-- The call `this.name(...)` of a method that `AISpeedrunBot` calls and does not define. -/
  helper : String → Action σ
  /-- The call `this.findNearestStructure(structure)`, not defined either; `none` is a falsy
  value. -/
  findNearestStructure : String → σ → Completion (Option Vec3) × σ
  /-- The call `bot.nearestEntity(match)`; `none` is `null`. -/
  nearestEntity : σ → (Entity → Bool) → Option Entity
  /-- The call `bot.pathfinder.setMovements(movements)`. -/
  setMovements : Action σ
  /-- The call `bot.pathfinder.setGoal(goal)`. -/
  setGoal : Vec3 → Action σ
  /-- The call `this.executeStrategy(strategy, target)` of `CombatAI`, which the class does not
  define. -/
  executeStrategy : String → Entity → Action σ
  /-- The property `health` of an entity, as it reads in a state. -/
  targetHealth : σ → Entity → JSNum
  /-- The call `bot.pvp.attack(target)`. -/
  attack : Entity → Action σ
  /-- The call `new BedPlacer(this.bot)`; the file defines no such class. -/
  newBedPlacer : Action σ
  /-- The call `bedPlacer.placeBedNearDragon(dragon)`. -/
  placeBedNearDragon : Entity → Action σ

/-! ## `src/speedrunbot.js`: class `ResourceAI` -/

namespace Speedrunbot.ResourceAI

open Eff

/-- The fields of a `ResourceAI` object that its methods read, `bot` and `mcData` apart. -/
structure Fields where
  /-- The map `requiredItems`, in insertion order. -/
  requiredItems : List (String × Nat)
  deriving DecidableEq, Repr

/-- The constructor. -/
def new : Fields :=
  { requiredItems := [("wood", 16), ("cobblestone", 32), ("iron_ingot", 12), ("food", 16)] }

variable {σ : Type}

/-- The method `mineBlock(position)`. -/
def mineBlock (E : Env σ) (position : Vec3) : Eff σ Unit := do
  emit (.mineBlock position)
  let block ← read (fun s => E.blockAt s position)
  tryCatch
    (do
      call (.equipForBlock block) (E.equipForBlock block)
      call (.dig block) (E.dig block))
    (fun _error => emit (.console "Mining error:"))

/-- The method `collectResource(itemName, amount)`. The guard `!blockID` holds for `undefined`
and for the id 0. -/
def collectResource (E : Env σ) (itemName : String) (amount : Nat) : Eff σ Unit := do
  emit (.collectResource itemName amount)
  match E.blocksByName itemName with
  | none => pure ()
  | some 0 => pure ()
  | some blockID =>
    let blocks ← read (fun s => E.findBlocks s (.id blockID) 32 (some amount))
    forOf blocks (fun block => mineBlock E block)

/-- The method `gatherResources()`. -/
def gatherResources (self : Fields) (E : Env σ) : Eff σ Unit :=
  forOf self.requiredItems (fun entry => do
    let currentAmount ← query (fun s => E.inventoryCount s entry.1) (.inventoryCount entry.1)
    if currentAmount < entry.2 then
      collectResource E entry.1 (entry.2 - currentAmount))

/-- The entries into `collectResource` that a trace records, oldest first. -/
def collectCalls (trace : List Event) : List (String × Nat) :=
  trace.filterMap (fun e =>
    match e with
    | .collectResource itemName amount => some (itemName, amount)
    | _ => none)

/-- The calls of `bot.inventory.count` that a trace records, each with the count it returned,
oldest first. -/
def countReads (trace : List Event) : List (String × Nat) :=
  trace.filterMap (fun e =>
    match e with
    | .inventoryCount item result => some (item, result)
    | _ => none)

/-- The entries into `mineBlock` that a trace records, oldest first. -/
def mineCalls (trace : List Event) : List Vec3 :=
  trace.filterMap (fun e =>
    match e with
    | .mineBlock position => some position
    | _ => none)

/-- The deficit of a resource kind in the words of the specification:
`max(0, desired - held)`. -/
def deficit (desired held : Nat) : Int :=
  max 0 ((desired : Int) - (held : Int))

/-- The acquisitions the specification asks for, given the required amounts in declaration
order and the held count of each entry: one per entry, in order, with the deficit as its amount,
and none for an entry whose deficit is 0. -/
def expectedAcquisitions (required : List (String × Nat)) (held : List Nat) :
    List (String × Nat) :=
  (required.zip held).filterMap (fun p =>
    if 0 < deficit p.1.2 p.2 then some (p.1.1, (deficit p.1.2 p.2).toNat) else none)

end Speedrunbot.ResourceAI

/-! ## `src/speedrunbot.js`: class `SurvivalAI` -/

namespace Speedrunbot.SurvivalAI

open Eff

/-- The fields of a `SurvivalAI` object, `bot` apart. -/
structure Fields where
  /-- The field `healthThreshold`. -/
  healthThreshold : JSNum
  /-- The field `foodThreshold`. -/
  foodThreshold : JSNum
  /-- The elements of the set `dangerBlocks`. -/
  dangerBlocks : List String
  deriving DecidableEq, Repr

/-- The constructor. -/
def new : Fields :=
  { healthThreshold := .fin 10, foodThreshold := .fin 14,
    dangerBlocks := ["lava", "fire", "cactus"] }

variable {σ : Type}

/-- The method `checkHealth()`. -/
def checkHealth (self : Fields) (E : Env σ) : Eff σ Unit := do
  let health ← Eff.read E.health
  if JSNum.lt health self.healthThreshold then
    call .useHealthItems E.useHealthItems
    call .retreatToSafety E.retreatToSafety

/-- The method `checkFood()`. -/
def checkFood (self : Fields) (E : Env σ) : Eff σ Unit := do
  let food ← Eff.read E.food
  if JSNum.lt food self.foodThreshold then
    call .eat E.eat

/-- The method `avoidDangerousBlocks()`. -/
def avoidDangerousBlocks (self : Fields) (E : Env σ) : Eff σ Unit := do
  let nearbyBlocks ← Eff.read (fun s =>
    E.findBlocks s (.byName (fun name => self.dangerBlocks.contains name)) 2 none)
  if nearbyBlocks.length > 0 then
    call .avoidDanger E.avoidDanger

/-- The method `maintainSafety()`. -/
def maintainSafety (self : Fields) (E : Env σ) : Eff σ Unit := do
  checkHealth self E
  checkFood self E
  avoidDangerousBlocks self E

end Speedrunbot.SurvivalAI

/-- A number is below a finite threshold, as a proposition: it is -Infinity or a finite number
less than the threshold; NaN and +Infinity are not below anything. -/
def JSNum.Below : JSNum → ℚ → Prop
  | .negInf, _ => True
  | .fin q, threshold => q < threshold
  | .nan, _ => False
  | .posInf, _ => False

instance (x : JSNum) (threshold : ℚ) : Decidable (x.Below threshold) := by
  cases x <;> simp only [JSNum.Below] <;> infer_instance

/-! ## `src/speedrunbot.js`: class `CombatAI` -/

namespace Speedrunbot.CombatAI

/-- The fields of a `CombatAI` object that its constructor sets, `bot` apart. -/
structure Fields where
  /-- The field `isInCombat`. -/
  isInCombat : Bool
  /-- The field `targetEntity`. -/
  targetEntity : Option Entity
  /-- The keys of the map `combatStrategies`, in insertion order. -/
  combatStrategies : List String
  deriving DecidableEq, Repr

/-- The method `initializeStrategies`: three `Map.set` calls, keys `'dragon'`, `'hostile'`,
`'player'`; setting a key that is present keeps its position. -/
def initializeStrategies (self : Fields) : Fields :=
  let set (keys : List String) (k : String) : List String :=
    if k ∈ keys then keys else keys ++ [k]
  { self with
    combatStrategies := set (set (set self.combatStrategies "dragon") "hostile") "player" }

/-- The constructor: `isInCombat = false`, `targetEntity = null`, an empty map, then
`initializeStrategies()`. -/
def new : Fields :=
  initializeStrategies { isInCombat := false, targetEntity := none, combatStrategies := [] }

/-- The method `determineStrategy(target)`. -/
def determineStrategy (_self : Fields) (target : Entity) : String :=
  if target.name = some "ender_dragon" then "dragon"
  else if target.type = some "player" then "player"
  else "hostile"

end Speedrunbot.CombatAI

/-! ## `src/speedrunbot.js`: classes `AdvancedPathfinding` and `AISpeedrunBot` -/

/-- An `AISpeedrunBot` object together with what surrounds it: the fields its methods write,
and everything else. The resource and survival systems in `aiSystems` hold constants only. -/
structure Speedrunbot.BotState (ω : Type) where
  /-- Everything outside the fields below: the bot, its plugins, the server. -/
  world : ω
  /-- The object `aiSystems.combat`. -/
  combat : Speedrunbot.CombatAI.Fields
  /-- The field `startTime`; `none` before it is set. -/
  startTime : Option ℚ

namespace Speedrunbot.AdvancedPathfinding

variable {σ : Type}

/-- The method `pathTo(target, options = {})`, called with a target only. -/
def pathTo (E : Env σ) (target : Vec3) : Eff σ Bool :=
  let goal : Vec3 := ⟨target.x, target.y, target.z⟩
  Eff.tryCatch
    (do
      Eff.call .setMovements E.setMovements
      Eff.call (.setGoal goal) (E.setGoal goal)
      pure true)
    (fun _error => do
      Eff.emit (.console "Pathfinding error:")
      pure false)

end Speedrunbot.AdvancedPathfinding

namespace Speedrunbot.CombatAI

variable {ω : Type}

/-- The method `engageTarget(target)`. -/
def engageTarget (E : Env (BotState ω)) (target : Entity) : Eff (BotState ω) Unit := do
  Eff.update (fun st => { st with combat := { st.combat with isInCombat := true } })
  Eff.update (fun st => { st with combat := { st.combat with targetEntity := some target } })
  let self ← Eff.getState
  let strategy := determineStrategy self.combat target
  Eff.call (.executeStrategy strategy target) (E.executeStrategy strategy target)

/-- The start of one turn of a combat loop, recorded with the values the test has just read.
It stands for no statement. -/
def cycleStart (E : Env (BotState ω)) (target : Entity) : Eff (BotState ω) Unit := do
  let st ← Eff.getState
  Eff.emit (.cycle (E.targetHealth st target) st.combat.isInCombat)

/-- The body of the loop of `dragonCombatStrategy`. -/
def dragonCombatCycle (E : Env (BotState ω)) (dragon : Entity) : Eff (BotState ω) Unit := do
  cycleStart E dragon
  Eff.call (.placeBedNearDragon dragon) (E.placeBedNearDragon dragon)
  Eff.call (.helper "avoidDragonBreath") (E.helper "avoidDragonBreath")

/-- The method `dragonCombatStrategy(dragon)`, with a bound on the number of tests of the
loop. -/
def dragonCombatStrategy (E : Env (BotState ω)) (dragon : Entity) (fuel : Nat) :
    BotState ω → Option (Result (BotState ω) Unit) :=
  callThenLoop .newBedPlacer E.newBedPlacer
    (whileLoop
      (fun st => JSNum.lt (.fin 0) (E.targetHealth st dragon) && st.combat.isInCombat)
      (dragonCombatCycle E dragon) fuel)

/-- The body of the loop of `hostileMobStrategy`. -/
def hostileMobCycle (E : Env (BotState ω)) (mob : Entity) : Eff (BotState ω) Unit := do
  cycleStart E mob
  Eff.call (.attack mob) (E.attack mob)
  Eff.call (.helper "maintainDistance") (E.helper "maintainDistance")

/-- The method `hostileMobStrategy(mob)`, with a bound on the number of tests of the loop. -/
def hostileMobStrategy (E : Env (BotState ω)) (mob : Entity) (fuel : Nat) :
    BotState ω → Option (Result (BotState ω) Unit) :=
  whileLoop
    (fun st => JSNum.lt (.fin 0) (E.targetHealth st mob) && st.combat.isInCombat)
    (hostileMobCycle E mob) fuel

/-- The body of the loop of `playerCombatStrategy`. -/
def playerCombatCycle (E : Env (BotState ω)) (player : Entity) : Eff (BotState ω) Unit := do
  cycleStart E player
  Eff.call (.attack player) (E.attack player)
  Eff.call (.helper "performCriticalHits") (E.helper "performCriticalHits")

/-- The method `playerCombatStrategy(player)`, with a bound on the number of tests of the
loop. -/
def playerCombatStrategy (E : Env (BotState ω)) (player : Entity) (fuel : Nat) :
    BotState ω → Option (Result (BotState ω) Unit) :=
  whileLoop
    (fun st => JSNum.lt (.fin 0) (E.targetHealth st player) && st.combat.isInCombat)
    (playerCombatCycle E player) fuel

end Speedrunbot.CombatAI

namespace Speedrunbot.AISpeedrunBot

variable {ω : Type}

/-- The method `gatherInitialResources()`. -/
def gatherInitialResources (E : Env (BotState ω)) : Eff (BotState ω) Unit := do
  Eff.emit (.enter "gatherInitialResources")
  Eff.emit (.console "Gathering initial resources...")
  ResourceAI.gatherResources ResourceAI.new E

/-- The method `findVillageAndLoot()`. -/
def findVillageAndLoot (E : Env (BotState ω)) : Eff (BotState ω) Unit := do
  Eff.emit (.enter "findVillageAndLoot")
  Eff.emit (.console "Searching for village...")
  let village ← Eff.call (.findNearestStructure "village") (E.findNearestStructure "village")
  match village with
  | some position =>
    let _ ← AdvancedPathfinding.pathTo E position
    Eff.call (.helper "lootVillage") (E.helper "lootVillage")
  | none => pure ()

/-- The method `prepareForNether()`. -/
def prepareForNether (E : Env (BotState ω)) : Eff (BotState ω) Unit := do
  Eff.emit (.enter "prepareForNether")
  Eff.emit (.console "Preparing for nether...")
  Eff.call (.helper "collectDiamonds") (E.helper "collectDiamonds")
  Eff.call (.helper "buildPortal") (E.helper "buildPortal")

/-- The method `enterAndNavigateNether()`. -/
def enterAndNavigateNether (E : Env (BotState ω)) : Eff (BotState ω) Unit := do
  Eff.emit (.enter "enterAndNavigateNether")
  Eff.emit (.console "Entering nether...")
  Eff.call (.helper "findAndEnterPortal") (E.helper "findAndEnterPortal")
  Eff.call (.helper "collectBlazePowder") (E.helper "collectBlazePowder")
  Eff.call (.helper "findFortress") (E.helper "findFortress")

/-- The method `findStronghold()`. -/
def findStronghold (E : Env (BotState ω)) : Eff (BotState ω) Unit := do
  Eff.emit (.enter "findStronghold")
  Eff.emit (.console "Locating stronghold...")
  Eff.call (.helper "useEyesOfEnder") (E.helper "useEyesOfEnder")
  Eff.call (.helper "digToStronghold") (E.helper "digToStronghold")

/-- The method `prepareForDragon()`. -/
def prepareForDragon (E : Env (BotState ω)) : Eff (BotState ω) Unit := do
  Eff.emit (.enter "prepareForDragon")
  Eff.emit (.console "Preparing for dragon fight...")
  Eff.call (.helper "collectBeds") (E.helper "collectBeds")
  Eff.call (.helper "craftEquipment") (E.helper "craftEquipment")

/-- The method `fightDragon()`. -/
def fightDragon (E : Env (BotState ω)) : Eff (BotState ω) Unit := do
  Eff.emit (.enter "fightDragon")
  Eff.emit (.console "Engaging dragon...")
  let dragon ← Eff.read (fun s =>
    E.nearestEntity s (fun e => decide (e.name = some "ender_dragon")))
  match dragon with
  | some target => CombatAI.engageTarget E target
  | none => pure ()

/-- The method `handleError(error)`. -/
def handleError (_error : JSError) : Eff (BotState ω) Unit :=
  Eff.emit (.console "Bot error:")

/-- The method `startSpeedrun()`. -/
def startSpeedrun (E : Env (BotState ω)) : Eff (BotState ω) Unit := do
  Eff.emit (.console "Starting speedrun...")
  let now ← Eff.read E.now
  Eff.update (fun st => { st with startTime := some now })
  Eff.tryCatch
    (do
      gatherInitialResources E
      findVillageAndLoot E
      prepareForNether E
      enterAndNavigateNether E
      findStronghold E
      prepareForDragon E
      fightDragon E)
    (fun error => do
      Eff.emit (.console "Speedrun error:")
      handleError error)

/-- The phase methods a trace records the entry into, oldest first. -/
def phaseEntries (trace : List Event) : List String :=
  trace.filterMap (fun e =>
    match e with
    | .enter method => some method
    | _ => none)

/-- The seven phases of `startSpeedrun` in the order in which they are written. -/
def writtenOrder : List String :=
  ["gatherInitialResources", "findVillageAndLoot", "prepareForNether",
    "enterAndNavigateNether", "findStronghold", "prepareForDragon", "fightDragon"]

end Speedrunbot.AISpeedrunBot

/-! ## `src/Improvedbot.js`: class `ErrorHandler` -/

namespace Improvedbot.ErrorHandler

variable {σ : Type}

/-- The array `unrecoverableErrors` of `isRecoverable`. -/
def unrecoverableErrors : List String :=
  ["ECONNREFUSED", "AUTHFAIL", "CRITICAL_ERROR"]

/-- The static method `isRecoverable(error)`. The call `includes(error.code)` finds `error.code`
only when it is one of the strings of the array; a code that is absent or not a string is not
found. -/
def isRecoverable (error : JSError) : Bool :=
  !(match error.code with
    | some code => unrecoverableErrors.contains code
    | none => false)

/-- The static method `logError(timestamp, context, error)`: its body is empty. -/
def logError (_timestamp _context : String) (_error : JSError) : Eff σ Unit :=
  pure ()

/-- The static method `handle(error, context)`, with the call `new Date().toISOString()` as a
parameter; a call that gives no context passes the default `''`. -/
def handle (toISOString : σ → String) (error : JSError) (context : String) : Eff σ Bool := do
  let timestamp ← Eff.read toISOString
  Eff.emit (.console ("[" ++ timestamp ++ "] Error in " ++ context ++ ":"))
  logError timestamp context error
  pure (isRecoverable error)

end Improvedbot.ErrorHandler

/-! ## `src/Improvedbot.js`: class `ImprovedSpeedrunBot` -/

namespace Improvedbot

/-- What `ImprovedSpeedrunBot` calls and does not define, over the state `ω` of everything
outside the object. -/
structure Env (ω : Type) where
  /-- The call `this[method]()`: the class defines none of the phase methods. -/
  method : String → Action ω
  /-- The call `performance.now()`. -/
  now : ω → ℚ
  /-- The call `new Date().toISOString()`. -/
  toISOString : ω → String
  /-- The call `this.handleSpeedrunFailure()`, which the class does not define. -/
  handleSpeedrunFailure : Action ω

namespace ImprovedSpeedrunBot

/-- The object in the field `state`. -/
structure RunState where
  /-- The property `running`. -/
  running : Bool
  /-- The property `speedrunStartTime`; `none` is `null`. -/
  speedrunStartTime : Option ℚ
  /-- The property `currentPhase`; `none` is `null`. -/
  currentPhase : Option String
  deriving DecidableEq, Repr

/-- An `ImprovedSpeedrunBot` object together with what surrounds it. -/
structure State (ω : Type) where
  /-- Everything outside the object. -/
  world : ω
  /-- The field `state`. -/
  state : RunState

/-- The constructor, as far as the field `state` goes. -/
def new {ω : Type} (world : ω) : State ω :=
  { world := world,
    state := { running := false, speedrunStartTime := none, currentPhase := none } }

variable {ω : Type}

/-- An asynchronous call that acts on what is outside the object. -/
def outside {α : Type} (callee : ω → Completion α × ω) (st : State ω) :
    Completion α × State ω :=
  ((callee st.world).1, { st with world := (callee st.world).2 })

/-- The array `phases` of `executeSpeedrunPhases`. -/
def phases : List String :=
  ["gatherInitialResources", "findVillage", "prepareNether", "navigateNether",
    "findStronghold", "defeatDragon"]

/-- The method `executeSpeedrunPhases()`. -/
def executeSpeedrunPhases (E : Env ω) : Eff (State ω) Unit :=
  Eff.forOf phases (fun phase => do
    Eff.update (fun st => { st with state := { st.state with currentPhase := some phase } })
    let self ← Eff.getState
    Eff.call (.invoke phase self.state.currentPhase) (outside (E.method phase)))

/-- The method `startSpeedrun()`. -/
def startSpeedrun (E : Env ω) : Eff (State ω) Unit := do
  Eff.update (fun st => { st with state := { st.state with running := true } })
  let now ← Eff.read (fun st => E.now st.world)
  Eff.update (fun st => { st with state := { st.state with speedrunStartTime := some now } })
  Eff.tryCatch (executeSpeedrunPhases E)
    (fun error => do
      let _ ← ErrorHandler.handle (fun st => E.toISOString st.world) error "Speedrun"
      Eff.call (.helper "handleSpeedrunFailure") (outside E.handleSpeedrunFailure))

/-- The state in which the `try` block of `startSpeedrun` begins: `state.running` and
`state.speedrunStartTime` are set. -/
def started (E : Env ω) (st : State ω) : State ω :=
  { st with
    state := { st.state with running := true, speedrunStartTime := some (E.now st.world) } }

/-- The calls `this[method]()` that a trace records, oldest first. -/
def invoked (trace : List Event) : List String :=
  trace.filterMap (fun e =>
    match e with
    | .invoke method _ => some method
    | _ => none)

/-- An environment in which every phase completes normally and changes nothing. -/
def quietEnv : Env Unit where
  method := fun _ w => (.normal (), w)
  now := fun _ => 0
  toISOString := fun _ => "1970-01-01T00:00:00.000Z"
  handleSpeedrunFailure := fun w => (.normal (), w)

/-- An environment in which the phase `failing` rejects with `error` and every other call
completes normally; nothing changes. -/
def failingEnv (failing : String) (error : JSError) : Env Unit where
  method := fun phase w => if phase = failing then (.throw error, w) else (.normal (), w)
  now := fun _ => 0
  toISOString := fun _ => "1970-01-01T00:00:00.000Z"
  handleSpeedrunFailure := fun w => (.normal (), w)

end ImprovedSpeedrunBot

end Improvedbot

/-! ## `src/Improvedbot.js`: class `EnhancedCombatAI` -/

namespace Improvedbot.EnhancedCombatAI

/-- The strategy objects that `initializeStrategies` constructs. -/
inductive Strategy where
  /-- An instance made by `new DragonStrategy(this.bot)`. -/
  | DragonStrategy
  /-- An instance made by `new PlayerStrategy(this.bot)`. -/
  | PlayerStrategy
  /-- An instance made by `new MobStrategy(this.bot)`. -/
  | MobStrategy
  deriving DecidableEq, Repr

/-- The fields of an `EnhancedCombatAI` object read by `getStrategy`: the map `strategies` as an
association list in insertion order. -/
structure Fields where
  /-- The map `strategies`. -/
  strategies : List (String × Strategy)
  deriving DecidableEq, Repr

/-- The call `Map.prototype.set(key, value)` on an association list: an existing key keeps its
position and takes the new value, a new key goes last. -/
def mapSet {β : Type} (m : List (String × β)) (key : String) (value : β) : List (String × β) :=
  if m.any (fun kv => kv.1 == key) then
    m.map (fun kv => if kv.1 == key then (key, value) else kv)
  else m ++ [(key, value)]

/-- The call `Map.prototype.get(key)`: `none` stands for `undefined`. -/
def mapGet {β : Type} (m : List (String × β)) (key : String) : Option β :=
  (m.find? (fun kv => kv.1 == key)).map Prod.snd

/-- The method `initializeStrategies`. -/
def initializeStrategies (self : Fields) : Fields :=
  { self with
    strategies :=
      mapSet (mapSet (mapSet self.strategies "dragon" Strategy.DragonStrategy)
        "player" Strategy.PlayerStrategy) "mob" Strategy.MobStrategy }

/-- The constructor, as far as `strategies` goes: an empty map, then
`initializeStrategies()`. -/
def new : Fields :=
  initializeStrategies { strategies := [] }

/-- The method `getStrategy(target)`. -/
def getStrategy (self : Fields) (target : Entity) : Option Strategy :=
  if target.type = some "player" then mapGet self.strategies "player"
  else if target.name = some "ender_dragon" then mapGet self.strategies "dragon"
  else mapGet self.strategies "mob"

end Improvedbot.EnhancedCombatAI

/-! ## `src/bot.js`: class `ConnectionManager` -/

namespace BotJs

/-- What the connection code of `src/bot.js` calls and does not define, over the state `ω` of
everything outside the `ConnectionManager` object. -/
structure Env (ω : Type) where
  /-- The call `mineflayer.createBot(botOptions)`: the new bot, named by a number. -/
  createBot : ω → Completion Nat × ω
  /-- The call `this.setupBot()` in the timer callback of `reconnect`; `ConnectionManager`
  defines no such method. -/
  setupBot : Action ω
  /-- The call `this.onSpawn()` made by the listener of the event `'spawn'`; no class of the file
  defines the method. -/
  onSpawn : Action ω

namespace ConnectionManager

/-- A `ConnectionManager` object together with what surrounds it. -/
structure State (ω : Type) where
  /-- Everything outside the object. -/
  world : ω
  /-- The field `bot`, the bot named by a number. -/
  bot : Nat
  /-- The field `reconnectAttempts`. -/
  reconnectAttempts : Nat
  /-- The callbacks handed to `setTimeout` that have not run yet. All of them are the callback of
  `reconnect`, so their number stands for them. -/
  pendingTimers : Nat

/-- The constructor. -/
def new {ω : Type} (world : ω) (bot : Nat) : State ω :=
  { world := world, bot := bot, reconnectAttempts := 0, pendingTimers := 0 }

variable {ω : Type}

/-- An asynchronous call that acts on what is outside the object. -/
def outside {α : Type} (callee : ω → Completion α × ω) (st : State ω) :
    Completion α × State ω :=
  ((callee st.world).1, { st with world := (callee st.world).2 })

/-- The call `setTimeout(callback, ms)` with the callback of `reconnect`: one more pending
timer. -/
def setTimeout (ms : Nat) : Eff (State ω) Unit := do
  Eff.emit (.setTimeout ms)
  Eff.update (fun st => { st with pendingTimers := st.pendingTimers + 1 })

/-- The method `reconnect()`. -/
def reconnect : Eff (State ω) Unit := do
  let self ← Eff.getState
  if self.reconnectAttempts < 5 then
    Eff.update (fun st => { st with reconnectAttempts := st.reconnectAttempts + 1 })
    setTimeout 5000

/-- The method `handleDisconnect()`. -/
def handleDisconnect : Eff (State ω) Unit := do
  Eff.emit (.console "انقطع الاتصال. جاري إعادة المحاولة...")
  reconnect

/-- The callback that `reconnect` hands to `setTimeout`. -/
def reconnectCallback (E : Env ω) : Eff (State ω) Unit := do
  let bot ← Eff.call .createBot (outside E.createBot)
  Eff.update (fun st => { st with bot := bot })
  Eff.call (.helper "setupBot") (outside E.setupBot)

/-- What can happen to a `ConnectionManager`, one turn of the event loop each. -/
inductive Input where
  /-- A call of `handleDisconnect()`: a connection has failed. -/
  | handleDisconnect
  /-- A call of `reconnect()`. -/
  | reconnect
  /-- The oldest pending timer fires, if there is one. -/
  | timer
  /-- The bot emits `'spawn'`, a successful start: the listener set by `setupEventHandlers`
  runs. -/
  | spawn
  deriving DecidableEq, Repr

/-- One turn of the event loop. -/
def turn (E : Env ω) : Input → Eff (State ω) Unit
  | .handleDisconnect => handleDisconnect
  | .reconnect => reconnect
  | .timer => fun st =>
    if 0 < st.pendingTimers then
      reconnectCallback E { st with pendingTimers := st.pendingTimers - 1 }
    else ⟨.normal (), st, []⟩
  | .spawn => Eff.call (.helper "onSpawn") (outside E.onSpawn)

/-- A sequence of turns. A turn that ends in an exception does not stop the event loop: the
next turn starts from the state it left. -/
def run (E : Env ω) : List Input → State ω → State ω × List Event
  | [], st => (st, [])
  | i :: rest, st =>
    ((run E rest (turn E i st).state).1,
      (turn E i st).trace ++ (run E rest (turn E i st).state).2)

/-- The number of calls of `reconnect` in a sequence of turns, those made by `handleDisconnect`
included. -/
def reconnectCalls (inputs : List Input) : Nat :=
  inputs.countP (fun i => i = .handleDisconnect ∨ i = .reconnect)

/-- The number of reconnections a trace schedules: its calls of `setTimeout`. -/
def scheduled (trace : List Event) : Nat :=
  trace.countP (fun e => e = .setTimeout 5000)

/-- An environment in which every call completes normally and changes nothing. -/
def quietEnv : Env Unit where
  createBot := fun w => (.normal 0, w)
  setupBot := fun w => (.normal (), w)
  onSpawn := fun w => (.normal (), w)

end ConnectionManager

end BotJs

/-! ## `Array.prototype.sort` -/

/-- Insertion of `x` into a list, in front of the first element `y` with `comparefn(x, y) <= 0`.
-/
def insertBy {α : Type} (comparefn : α → α → Int) (x : α) : List α → List α
  | [] => [x]
  | y :: ys => if comparefn x y ≤ 0 then x :: y :: ys else y :: insertBy comparefn x ys

/-- The call `array.sort(comparefn)`. The language specification requires the sort to be stable:
of two elements the one with the negative comparison goes first and elements that compare equal
keep their order; for a consistent comparator this fixes the result, and insertion from the
right computes it. -/
def arraySort {α : Type} (comparefn : α → α → Int) : List α → List α
  | [] => []
  | x :: xs => insertBy comparefn x (arraySort comparefn xs)

/-! ## `src/Improvedbot.js`: class `EnhancedResourceAI` -/

namespace Improvedbot.EnhancedResourceAI

/-- A task object of the gathering plan. -/
structure Task where
  /-- The property `type`. -/
  type : String
  /-- The property `amount`. -/
  amount : Nat
  /-- The property `priority`. -/
  priority : Int
  deriving DecidableEq, Repr

/-- The array literal of `createGatheringPlan`, before it is sorted. -/
def declaredTasks : List Task :=
  [ { type := "wood", amount := 16, priority := 1 },
    { type := "stone", amount := 32, priority := 2 },
    { type := "iron", amount := 12, priority := 3 },
    { type := "food", amount := 16, priority := 1 } ]

/-- The method `createGatheringPlan()`: it reads nothing of the object and nothing of the bot.
-/
def createGatheringPlan {σ : Type} : Eff σ (List Task) :=
  pure (arraySort (fun a b => a.priority - b.priority) declaredTasks)

end Improvedbot.EnhancedResourceAI

/-! ## A fixed environment, for evaluating the code on concrete inputs -/

/-- An environment in which nothing ever changes: the vitals, the inventory and the blocks
nearby are the ones given whatever the state, `minecraft-data` knows no block, no structure and
no entity is found, and every asynchronous call completes normally and leaves the state as it
is. -/
def Speedrunbot.fixedEnv {σ : Type} (health food : JSNum) (inventory : String → Nat)
    (nearby : List Block) : Speedrunbot.Env σ where
  health := fun _ => health
  food := fun _ => food
  inventoryCount := fun _ item => inventory item
  blocksByName := fun _ => none
  findBlocks := fun _ matching _ _ =>
    match matching with
    | .id _ => []
    | .byName test => (nearby.filter (fun b => test b.name)).map (fun b => b.position)
  blockAt := fun _ position => nearby.find? (fun b => b.position = position)
  equipForBlock := fun _ s => (.normal (), s)
  dig := fun _ s => (.normal (), s)
  useHealthItems := fun s => (.normal (), s)
  retreatToSafety := fun s => (.normal (), s)
  eat := fun s => (.normal (), s)
  avoidDanger := fun s => (.normal (), s)
  now := fun _ => 0
  helper := fun _ s => (.normal (), s)
  findNearestStructure := fun _ s => (.normal none, s)
  nearestEntity := fun _ _ => none
  setMovements := fun s => (.normal (), s)
  setGoal := fun _ s => (.normal (), s)
  executeStrategy := fun _ _ s => (.normal (), s)
  targetHealth := fun _ _ => .fin 0
  attack := fun _ s => (.normal (), s)
  newBedPlacer := fun s => (.normal (), s)
  placeBedNearDragon := fun _ s => (.normal (), s)

/-- An environment in which every block is known to `minecraft-data`, `findBlocks` finds the
same two blocks for every block id, the inventory is empty, and equipping a tool always
rejects; nothing changes. -/
def Speedrunbot.brokenToolEnv {σ : Type} : Speedrunbot.Env σ :=
  { (Speedrunbot.fixedEnv (.fin 20) (.fin 20) (fun _ => 0) [] : Speedrunbot.Env σ) with
    blocksByName := fun _ => some 1
    findBlocks := fun _ matching _ _ =>
      match matching with
      | .id _ => [⟨0, 64, 0⟩, ⟨1, 64, 0⟩]
      | .byName _ => []
    equipForBlock := fun _ s => (.throw { code := none, message := "no tool" }, s) }

/-- An environment over a world that is the health of the target, a natural number: an attack
and the placing of a bed take one point of it, down to 0; every call completes normally. -/
def Speedrunbot.duelEnv : Speedrunbot.Env (Speedrunbot.BotState Nat) :=
  { (Speedrunbot.fixedEnv (.fin 20) (.fin 20) (fun _ => 0) [] :
      Speedrunbot.Env (Speedrunbot.BotState Nat)) with
    targetHealth := fun st _ => .fin (st.world : ℚ)
    attack := fun _ st => (.normal (), { st with world := st.world - 1 })
    placeBedNearDragon := fun _ st => (.normal (), { st with world := st.world - 1 }) }

/-- An environment in which a call of a method or a class that `src/speedrunbot.js` uses and
does not define throws, as such a call does; the vitals, the inventory and the blocks nearby
are the ones given whatever the state, the calls into the bot and its plugins complete normally,
and nothing changes. -/
def Speedrunbot.undefinedHelpersEnv {σ : Type} (health food : JSNum)
    (inventory : String → Nat) (nearby : List Block) : Speedrunbot.Env σ :=
  { (Speedrunbot.fixedEnv health food inventory nearby : Speedrunbot.Env σ) with
    useHealthItems := fun s =>
      (.throw { code := none, message := "this.useHealthItems is not a function" }, s)
    retreatToSafety := fun s =>
      (.throw { code := none, message := "this.retreatToSafety is not a function" }, s)
    helper := fun name s =>
      (.throw { code := none, message := "this." ++ name ++ " is not a function" }, s)
    findNearestStructure := fun _ s =>
      (.throw { code := none, message := "this.findNearestStructure is not a function" }, s)
    executeStrategy := fun _ _ s =>
      (.throw { code := none, message := "this.executeStrategy is not a function" }, s)
    newBedPlacer := fun s =>
      (.throw { code := none, message := "BedPlacer is not defined" }, s) }

/-- An inventory given by its non-zero counts. -/
def inventoryOf (counts : List (String × Nat)) (item : String) : Nat :=
  ((counts.find? (fun kv => kv.1 == item)).map Prod.snd).getD 0

/-! ## Lemmas on sequential code -/

namespace Eff

variable {σ α β : Type}

theorem bind_eq (x : Eff σ α) (f : α → Eff σ β) : (x >>= f) = andThen x f := rfl

theorem pure_eq (a : α) : (pure a : Eff σ α) = ret a := rfl

theorem andThen_of_normal {x : Eff σ α} {f : α → Eff σ β} {s : σ} {a : α}
    (h : (x s).completion = .normal a) :
    andThen x f s =
      ⟨(f a (x s).state).completion, (f a (x s).state).state,
        (x s).trace ++ (f a (x s).state).trace⟩ := by
  simp only [andThen, h]

theorem andThen_of_throw {x : Eff σ α} {f : α → Eff σ β} {s : σ} {e : JSError}
    (h : (x s).completion = .throw e) :
    andThen x f s = ⟨.throw e, (x s).state, (x s).trace⟩ := by
  simp only [andThen, h]

theorem tryCatch_of_normal {body : Eff σ α} {handler : JSError → Eff σ α} {s : σ} {a : α}
    (h : (body s).completion = .normal a) :
    Eff.tryCatch body handler s = ⟨.normal a, (body s).state, (body s).trace⟩ := by
  simp only [Eff.tryCatch, h]

theorem tryCatch_of_throw {body : Eff σ α} {handler : JSError → Eff σ α} {s : σ} {e : JSError}
    (h : (body s).completion = .throw e) :
    Eff.tryCatch body handler s =
      ⟨(handler e (body s).state).completion, (handler e (body s).state).state,
        (body s).trace ++ (handler e (body s).state).trace⟩ := by
  simp only [Eff.tryCatch, h]

theorem traceAll_ret (P : Event → Prop) (a : α) : TraceAll P (ret a : Eff σ α) := by
  intro s e he
  simp [ret] at he

theorem traceAll_pure (P : Event → Prop) (a : α) : TraceAll P (pure a : Eff σ α) :=
  traceAll_ret P a

theorem traceAll_emit {P : Event → Prop} {e : Event} (h : P e) :
    TraceAll P (emit e : Eff σ Unit) := by
  intro s e' he
  simp only [emit, List.mem_singleton] at he
  exact he ▸ h

theorem traceAll_read (P : Event → Prop) (f : σ → α) : TraceAll P (Eff.read f) := by
  intro s e he
  simp [Eff.read] at he

theorem traceAll_getState (P : Event → Prop) : TraceAll P (getState : Eff σ σ) := by
  intro s e he
  simp [getState] at he

theorem traceAll_update (P : Event → Prop) (f : σ → σ) : TraceAll P (update f) := by
  intro s e he
  simp [update] at he

theorem traceAll_query {P : Event → Prop} (f : σ → α) {e : α → Event} (h : ∀ a, P (e a)) :
    TraceAll P (query f e) := by
  intro s e' he
  simp only [query, List.mem_singleton] at he
  exact he ▸ h _

theorem traceAll_call {P : Event → Prop} {e : Event} (callee : σ → Completion α × σ)
    (h : P e) : TraceAll P (call e callee) := by
  intro s e' he
  simp only [call, List.mem_singleton] at he
  exact he ▸ h

theorem traceAll_andThen {P : Event → Prop} {x : Eff σ α} {f : α → Eff σ β}
    (hx : TraceAll P x) (hf : ∀ a, TraceAll P (f a)) : TraceAll P (andThen x f) := by
  intro s e he
  unfold andThen at he
  cases hc : (x s).completion with
  | normal a =>
    rw [hc] at he
    rcases List.mem_append.1 he with h | h
    · exact hx s e h
    · exact hf a _ e h
  | throw err =>
    rw [hc] at he
    exact hx s e he

theorem traceAll_bind {P : Event → Prop} {x : Eff σ α} {f : α → Eff σ β}
    (hx : TraceAll P x) (hf : ∀ a, TraceAll P (f a)) : TraceAll P (x >>= f) :=
  traceAll_andThen hx hf

theorem traceAll_tryCatch {P : Event → Prop} {body : Eff σ α} {handler : JSError → Eff σ α}
    (hb : TraceAll P body) (hh : ∀ err, TraceAll P (handler err)) :
    TraceAll P (Eff.tryCatch body handler) := by
  intro s e he
  unfold Eff.tryCatch at he
  cases hc : (body s).completion with
  | normal a =>
    rw [hc] at he
    exact hb s e he
  | throw err =>
    rw [hc] at he
    rcases List.mem_append.1 he with h | h
    · exact hb s e h
    · exact hh err _ e h

theorem traceAll_forOf {P : Event → Prop} (xs : List α) {body : α → Eff σ Unit}
    (h : ∀ x, TraceAll P (body x)) : TraceAll P (forOf xs body) := by
  induction xs with
  | nil => exact traceAll_ret P ()
  | cons x rest ih =>
    unfold forOf
    exact traceAll_andThen (h x) (fun _ => ih)

end Eff

/-! ## Lemmas on loops -/

theorem whileLoop_of_false {σ : Type} (test : σ → Bool) (body : Eff σ Unit) (fuel : Nat) (s : σ)
    (h : test s = false) : whileLoop test body (fuel + 1) s = some ⟨.normal (), s, []⟩ := by
  simp [whileLoop, h]

/-- Every event of a finished loop satisfies what the events of every turn satisfy. -/
theorem whileLoop_trace_all {σ : Type} (test : σ → Bool) (body : Eff σ Unit)
    (P : Event → Prop) (hbody : ∀ s, test s = true → ∀ e ∈ (body s).trace, P e) :
    ∀ (fuel : Nat) (s : σ) (r : Result σ Unit),
      whileLoop test body fuel s = some r → ∀ e ∈ r.trace, P e := by
  intro fuel
  induction fuel with
  | zero =>
    intro s r h
    simp [whileLoop] at h
  | succ n ih =>
    intro s r h e he
    unfold whileLoop at h
    by_cases ht : test s = true
    · rw [if_pos ht] at h
      cases hc : (body s).completion with
      | throw err =>
        rw [hc] at h
        simp only [Option.some.injEq] at h
        subst h
        exact hbody s ht e he
      | normal u =>
        rw [hc] at h
        simp only [Option.map_eq_some'] at h
        obtain ⟨r', hr', rfl⟩ := h
        rcases List.mem_append.1 he with h1 | h1
        · exact hbody s ht e h1
        · exact ih _ r' hr' e h1
    · rw [if_neg ht] at h
      simp only [Option.some.injEq] at h
      subst h
      simp at he

/-- A loop that completes normally leaves a state in which its test fails. -/
theorem whileLoop_exit {σ : Type} (test : σ → Bool) (body : Eff σ Unit) :
    ∀ (fuel : Nat) (s : σ) (r : Result σ Unit),
      whileLoop test body fuel s = some r → r.completion = .normal () →
        test r.state = false := by
  intro fuel
  induction fuel with
  | zero =>
    intro s r h
    simp [whileLoop] at h
  | succ n ih =>
    intro s r h hnormal
    unfold whileLoop at h
    by_cases ht : test s = true
    · rw [if_pos ht] at h
      cases hc : (body s).completion with
      | throw err =>
        rw [hc] at h
        simp only [Option.some.injEq] at h
        subst h
        simp at hnormal
      | normal u =>
        rw [hc] at h
        simp only [Option.map_eq_some'] at h
        obtain ⟨r', hr', rfl⟩ := h
        exact ih _ r' hr' hnormal
    · rw [if_neg ht] at h
      simp only [Option.some.injEq] at h
      subst h
      simpa using ht

theorem cycles_append (t1 t2 : List Event) : cycles (t1 ++ t2) = cycles t1 + cycles t2 := by
  simp [cycles, List.countP_append]

/-- A loop whose every turn lowers a measure ends within as many turns as the measure counts
at the start. -/
theorem whileLoop_terminates {σ : Type} (test : σ → Bool) (body : Eff σ Unit) (hp : σ → Nat)
    (hdec : ∀ s, test s = true → hp (body s).state + 1 ≤ hp s)
    (hone : ∀ s, cycles (body s).trace = 1) :
    ∀ (fuel : Nat) (s : σ), hp s < fuel →
      ∃ r, whileLoop test body fuel s = some r ∧ cycles r.trace ≤ hp s := by
  intro fuel
  induction fuel with
  | zero =>
    intro s h
    exact absurd h (Nat.not_lt_zero _)
  | succ n ih =>
    intro s h
    unfold whileLoop
    by_cases ht : test s = true
    · rw [if_pos ht]
      have hd := hdec s ht
      cases hc : (body s).completion with
      | throw err =>
        refine ⟨_, rfl, ?_⟩
        show cycles (body s).trace ≤ hp s
        rw [hone]
        omega
      | normal u =>
        obtain ⟨r', hr', hle⟩ := ih (body s).state (by omega)
        refine ⟨_, by simp only [hr', Option.map_some']; rfl, ?_⟩
        show cycles ((body s).trace ++ r'.trace) ≤ hp s
        rw [cycles_append, hone]
        omega
    · rw [if_neg ht]
      exact ⟨_, rfl, Nat.zero_le _⟩

theorem JSNum.lt_zero_iff (x : JSNum) : JSNum.lt (.fin 0) x = true ↔ x.Positive := by
  cases x <;> simp [JSNum.lt, JSNum.Positive]

/-! ## Lemmas on `ResourceAI` of `src/speedrunbot.js` -/

namespace Speedrunbot.ResourceAI

variable {σ : Type}

theorem mineBlock_spec (E : Env σ) (position : Vec3) (s : σ) :
    (mineBlock E position s).completion = .normal () ∧
      collectCalls (mineBlock E position s).trace = [] ∧
      countReads (mineBlock E position s).trace = [] := by
  simp only [mineBlock, Eff.bind_eq, Eff.andThen, Eff.emit, Eff.read, Eff.tryCatch, Eff.call]
  rcases h1 : E.equipForBlock (E.blockAt s position) s with ⟨c1, s1⟩
  cases c1 with
  | throw e => simp [collectCalls, countReads]
  | normal u =>
    rcases h2 : E.dig (E.blockAt s position) s1 with ⟨c2, s2⟩
    cases c2 with
    | throw e => simp [collectCalls, countReads]
    | normal u2 => simp [collectCalls, countReads]

theorem collectCalls_append (t1 t2 : List Event) :
    collectCalls (t1 ++ t2) = collectCalls t1 ++ collectCalls t2 := by
  simp [collectCalls, List.filterMap_append]

theorem countReads_append (t1 t2 : List Event) :
    countReads (t1 ++ t2) = countReads t1 ++ countReads t2 := by
  simp [countReads, List.filterMap_append]

theorem forOf_mineBlock_spec (E : Env σ) (blocks : List Vec3) (s : σ) :
    (Eff.forOf blocks (fun block => mineBlock E block) s).completion = .normal () ∧
      collectCalls (Eff.forOf blocks (fun block => mineBlock E block) s).trace = [] ∧
      countReads (Eff.forOf blocks (fun block => mineBlock E block) s).trace = [] := by
  induction blocks generalizing s with
  | nil => simp [Eff.forOf, Eff.ret, collectCalls, countReads]
  | cons b rest ih =>
    obtain ⟨hc, hcalls, hreads⟩ := mineBlock_spec E b s
    obtain ⟨ihc, ihcalls, ihreads⟩ := ih (mineBlock E b s).state
    rw [Eff.forOf, Eff.andThen_of_normal hc]
    simp only [collectCalls_append, countReads_append]
    exact ⟨ihc, by rw [hcalls, ihcalls]; rfl, by rw [hreads, ihreads]; rfl⟩

theorem collectResource_spec (E : Env σ) (itemName : String) (amount : Nat) (s : σ) :
    (collectResource E itemName amount s).completion = .normal () ∧
      collectCalls (collectResource E itemName amount s).trace = [(itemName, amount)] ∧
      countReads (collectResource E itemName amount s).trace = [] := by
  unfold collectResource
  rcases hid : E.blocksByName itemName with _ | blockID
  · simp [Eff.bind_eq, Eff.pure_eq, Eff.andThen, Eff.emit, Eff.ret, collectCalls, countReads]
  · cases blockID with
    | zero =>
      simp [Eff.bind_eq, Eff.pure_eq, Eff.andThen, Eff.emit, Eff.ret, collectCalls, countReads]
    | succ n =>
      obtain ⟨hc, hcalls, hreads⟩ :=
        forOf_mineBlock_spec E (E.findBlocks s (.id (n + 1)) 32 (some amount)) s
      simp only [Eff.bind_eq, Eff.andThen, Eff.emit, Eff.read, collectCalls_append,
        countReads_append]
      refine ⟨hc, ?_, ?_⟩
      · rw [hcalls]; simp [collectCalls]
      · rw [hreads]; simp [countReads]

theorem deficit_pos_iff (desired held : Nat) : 0 < deficit desired held ↔ held < desired := by
  unfold deficit
  omega

theorem deficit_toNat (desired held : Nat) : (deficit desired held).toNat = desired - held := by
  unfold deficit
  omega

theorem expectedAcquisitions_cons (entry : String × Nat) (items : List (String × Nat))
    (held : Nat) (hs : List Nat) :
    expectedAcquisitions (entry :: items) (held :: hs) =
      (if held < entry.2 then [(entry.1, entry.2 - held)] else []) ++
        expectedAcquisitions items hs := by
  unfold expectedAcquisitions
  by_cases h : held < entry.2
  · simp [List.filterMap_cons, deficit_pos_iff, deficit_toNat, h]
  · simp [List.filterMap_cons, deficit_pos_iff, h]

theorem expectedAcquisitions_keys_sublist (items : List (String × Nat)) (hs : List Nat) :
    ((expectedAcquisitions items hs).map Prod.fst).Sublist (items.map Prod.fst) := by
  induction items generalizing hs with
  | nil => simp [expectedAcquisitions]
  | cons entry rest ih =>
    cases hs with
    | nil => simp [expectedAcquisitions]
    | cons held hs =>
      rw [expectedAcquisitions_cons]
      by_cases h : held < entry.2
      · simpa [h] using ih hs
      · simpa [h] using (ih hs).trans (List.sublist_cons_self _ _)

theorem expectedAcquisitions_pos (items : List (String × Nat)) (hs : List Nat)
    (c : String × Nat) (hc : c ∈ expectedAcquisitions items hs) :
    0 < c.2 ∧ ∃ entry ∈ items, c.1 = entry.1 ∧ c.2 ≤ entry.2 := by
  induction items generalizing hs with
  | nil => simp [expectedAcquisitions] at hc
  | cons entry rest ih =>
    cases hs with
    | nil => simp [expectedAcquisitions] at hc
    | cons held hs =>
      rw [expectedAcquisitions_cons, List.mem_append] at hc
      rcases hc with hc | hc
      · by_cases h : held < entry.2
        · simp only [h, if_true, List.mem_singleton] at hc
          subst hc
          exact ⟨by simp only; omega, entry, List.mem_cons_self _ _, rfl, by simp only; omega⟩
        · simp [h] at hc
      · obtain ⟨hpos, e, he, h1, h2⟩ := ih hs hc
        exact ⟨hpos, e, List.mem_cons_of_mem _ he, h1, h2⟩

/-- One turn of the loop of `gatherResources`. -/
theorem gatherResources_turn (E : Env σ) (entry : String × Nat) (s : σ) :
    let turn : Eff σ Unit := do
      let currentAmount ←
        Eff.query (fun s => E.inventoryCount s entry.1) (.inventoryCount entry.1)
      if currentAmount < entry.2 then
        collectResource E entry.1 (entry.2 - currentAmount)
    (turn s).completion = .normal () ∧
      countReads (turn s).trace = [(entry.1, E.inventoryCount s entry.1)] ∧
      collectCalls (turn s).trace =
        if E.inventoryCount s entry.1 < entry.2 then
          [(entry.1, entry.2 - E.inventoryCount s entry.1)]
        else [] := by
  intro turn
  by_cases h : E.inventoryCount s entry.1 < entry.2
  · obtain ⟨hc, hcalls, hreads⟩ :=
      collectResource_spec E entry.1 (entry.2 - E.inventoryCount s entry.1) s
    simp only [turn, Eff.bind_eq, Eff.andThen, Eff.query, h, if_true, collectCalls_append,
      countReads_append]
    refine ⟨hc, ?_, ?_⟩
    · rw [hreads]; simp [countReads]
    · rw [hcalls]; simp [collectCalls]
  · simp [turn, Eff.bind_eq, Eff.pure_eq, Eff.andThen, Eff.query, Eff.ret, h, collectCalls,
      countReads]

theorem gatherResources_loop (E : Env σ) (items : List (String × Nat)) (s : σ) :
    (gatherResources ⟨items⟩ E s).completion = .normal () ∧
      (countReads (gatherResources ⟨items⟩ E s).trace).map Prod.fst = items.map Prod.fst ∧
      collectCalls (gatherResources ⟨items⟩ E s).trace =
        expectedAcquisitions items
          ((countReads (gatherResources ⟨items⟩ E s).trace).map Prod.snd) ∧
      ∀ inv : String → Nat, (∀ s' item, E.inventoryCount s' item = inv item) →
        (countReads (gatherResources ⟨items⟩ E s).trace).map Prod.snd =
          items.map (fun entry => inv entry.1) := by
  induction items generalizing s with
  | nil =>
    simp [gatherResources, Eff.forOf, Eff.ret, collectCalls, countReads, expectedAcquisitions]
  | cons entry rest ih =>
    obtain ⟨hc, hreads, hcalls⟩ := gatherResources_turn E entry s
    simp only [gatherResources] at ih ⊢
    rw [Eff.forOf, Eff.andThen_of_normal hc]
    simp only [collectCalls_append, countReads_append, hreads, hcalls]
    obtain ⟨ihc, ihkeys, ihcalls, ihinv⟩ := ih _
    refine ⟨ihc, ?_, ?_, ?_⟩
    · simp [ihkeys]
    · rw [ihcalls]
      simp [expectedAcquisitions_cons]
    · intro inv hinv
      rw [List.map_append, ihinv inv hinv, hinv]
      rfl

theorem mineBlock_notEnter (E : Env σ) (position : Vec3) :
    Eff.TraceAll Event.NotEnter (mineBlock E position) := by
  unfold mineBlock
  refine Eff.traceAll_bind (Eff.traceAll_emit ?_) fun _ =>
    Eff.traceAll_bind (Eff.traceAll_read _ _) fun block =>
      Eff.traceAll_tryCatch
        (Eff.traceAll_bind (Eff.traceAll_call _ ?_) fun _ => Eff.traceAll_call _ ?_)
        fun _ => Eff.traceAll_emit ?_
  all_goals intro m h; cases h

theorem collectResource_notEnter (E : Env σ) (itemName : String) (amount : Nat) :
    Eff.TraceAll Event.NotEnter (collectResource E itemName amount) := by
  unfold collectResource
  refine Eff.traceAll_bind (Eff.traceAll_emit (fun m h => by cases h)) fun _ => ?_
  split
  · exact Eff.traceAll_pure _ _
  · exact Eff.traceAll_pure _ _
  · exact Eff.traceAll_bind (Eff.traceAll_read _ _) fun blocks =>
      Eff.traceAll_forOf blocks fun block => mineBlock_notEnter E block

theorem gatherResources_notEnter (self : Fields) (E : Env σ) :
    Eff.TraceAll Event.NotEnter (gatherResources self E) := by
  unfold gatherResources
  refine Eff.traceAll_forOf _ fun entry =>
    Eff.traceAll_bind (Eff.traceAll_query _ (fun a m h => by cases h)) fun currentAmount => ?_
  split
  · exact collectResource_notEnter E _ _
  · exact Eff.traceAll_pure _ _

theorem mineCalls_append (t1 t2 : List Event) :
    mineCalls (t1 ++ t2) = mineCalls t1 ++ mineCalls t2 := by
  simp [mineCalls, List.filterMap_append]

theorem mineBlock_mineCalls (E : Env σ) (position : Vec3) (s : σ) :
    mineCalls (mineBlock E position s).trace = [position] := by
  simp only [mineBlock, Eff.bind_eq, Eff.andThen, Eff.emit, Eff.read, Eff.tryCatch, Eff.call]
  cases (E.equipForBlock (E.blockAt s position) s).1 with
  | throw e => simp [mineCalls]
  | normal u =>
    cases (E.dig (E.blockAt s position) (E.equipForBlock (E.blockAt s position) s).2).1 with
    | throw e => simp [mineCalls]
    | normal u2 => simp [mineCalls]

theorem forOf_mineBlock_mineCalls (E : Env σ) (blocks : List Vec3) (s : σ) :
    mineCalls (Eff.forOf blocks (fun block => mineBlock E block) s).trace = blocks := by
  induction blocks generalizing s with
  | nil => rfl
  | cons b rest ih =>
    rw [Eff.forOf, Eff.andThen_of_normal (mineBlock_spec E b s).1]
    simp only [mineCalls_append, mineBlock_mineCalls, ih]
    rfl

theorem collectResource_mineCalls (E : Env σ) (itemName : String) (amount : Nat) (s : σ)
    (blockID : Nat) (hid : E.blocksByName itemName = some blockID) (hne : blockID ≠ 0) :
    mineCalls (collectResource E itemName amount s).trace =
      E.findBlocks s (.id blockID) 32 (some amount) := by
  unfold collectResource
  rw [hid]
  cases blockID with
  | zero => exact absurd rfl hne
  | succ n =>
    simp only [Eff.bind_eq, Eff.andThen, Eff.emit, Eff.read, mineCalls_append,
      forOf_mineBlock_mineCalls]
    simp [mineCalls]

end Speedrunbot.ResourceAI

/-! ## Lemmas on `SurvivalAI` of `src/speedrunbot.js` -/

theorem JSNum.lt_fin_iff (x : JSNum) (threshold : ℚ) :
    JSNum.lt x (.fin threshold) = true ↔ x.Below threshold := by
  cases x <;> simp [JSNum.lt, JSNum.Below]

namespace Speedrunbot.SurvivalAI

variable {σ : Type}

theorem checkHealth_eq (self : Fields) (E : Env σ) (s : σ) :
    checkHealth self E s =
      if JSNum.lt (E.health s) self.healthThreshold = true then
        match (E.useHealthItems s).1 with
        | .normal _ =>
          ⟨(E.retreatToSafety (E.useHealthItems s).2).1,
            (E.retreatToSafety (E.useHealthItems s).2).2,
            [.useHealthItems, .retreatToSafety]⟩
        | .throw e => ⟨.throw e, (E.useHealthItems s).2, [.useHealthItems]⟩
      else ⟨.normal (), s, []⟩ := by
  by_cases h : JSNum.lt (E.health s) self.healthThreshold = true
  · rcases hu : E.useHealthItems s with ⟨c, s1⟩
    cases c <;>
      simp [checkHealth, Eff.bind_eq, Eff.andThen, Eff.read, Eff.call, h, hu]
  · simp [checkHealth, Eff.bind_eq, Eff.pure_eq, Eff.andThen, Eff.read, Eff.ret, h]

theorem checkFood_eq (self : Fields) (E : Env σ) (s : σ) :
    checkFood self E s =
      if JSNum.lt (E.food s) self.foodThreshold = true then
        ⟨(E.eat s).1, (E.eat s).2, [.eat]⟩
      else ⟨.normal (), s, []⟩ := by
  by_cases h : JSNum.lt (E.food s) self.foodThreshold = true
  · simp [checkFood, Eff.bind_eq, Eff.andThen, Eff.read, Eff.call, h]
  · simp [checkFood, Eff.bind_eq, Eff.pure_eq, Eff.andThen, Eff.read, Eff.ret, h]

theorem avoidDangerousBlocks_eq (self : Fields) (E : Env σ) (s : σ) :
    avoidDangerousBlocks self E s =
      if E.findBlocks s (.byName (fun name => self.dangerBlocks.contains name)) 2 none ≠ [] then
        ⟨(E.avoidDanger s).1, (E.avoidDanger s).2, [.avoidDanger]⟩
      else ⟨.normal (), s, []⟩ := by
  simp only [avoidDangerousBlocks, Eff.bind_eq, Eff.pure_eq, Eff.andThen, Eff.read, Eff.ret,
    Eff.call, gt_iff_lt, List.length_pos, ne_eq]
  split_ifs <;> rfl

theorem checkHealth_trace_sublist (self : Fields) (E : Env σ) (s : σ) :
    (checkHealth self E s).trace.Sublist [.useHealthItems, .retreatToSafety] := by
  rw [checkHealth_eq]
  split_ifs
  · cases (E.useHealthItems s).1
    · exact List.Sublist.refl _
    · exact List.Sublist.cons₂ _ (List.nil_sublist _)
  · exact List.nil_sublist _

theorem checkFood_trace_sublist (self : Fields) (E : Env σ) (s : σ) :
    (checkFood self E s).trace.Sublist [.eat] := by
  rw [checkFood_eq]
  split_ifs
  · exact List.Sublist.refl _
  · exact List.nil_sublist _

theorem avoidDangerousBlocks_trace_sublist (self : Fields) (E : Env σ) (s : σ) :
    (avoidDangerousBlocks self E s).trace.Sublist [.avoidDanger] := by
  rw [avoidDangerousBlocks_eq]
  split_ifs
  · exact List.Sublist.refl _
  · exact List.nil_sublist _

theorem useHealthItems_mem_iff (E : Env σ) (s : σ) :
    Event.useHealthItems ∈ (checkHealth new E s).trace ↔ (E.health s).Below 10 := by
  have hH : JSNum.lt (E.health s) new.healthThreshold = true ↔ (E.health s).Below 10 :=
    JSNum.lt_fin_iff _ _
  rw [checkHealth_eq]
  simp only [hH]
  by_cases h : (E.health s).Below 10
  · simp only [h, if_true, iff_true]
    cases (E.useHealthItems s).1 <;> simp
  · simp [h]

theorem eat_mem_iff (E : Env σ) (s : σ) :
    Event.eat ∈ (checkFood new E s).trace ↔ (E.food s).Below 14 := by
  have hF : JSNum.lt (E.food s) new.foodThreshold = true ↔ (E.food s).Below 14 :=
    JSNum.lt_fin_iff _ _
  rw [checkFood_eq]
  simp only [hF]
  by_cases h : (E.food s).Below 14 <;> simp [h]

theorem avoidDanger_mem_iff (E : Env σ) (s : σ) :
    Event.avoidDanger ∈ (avoidDangerousBlocks new E s).trace ↔
      E.findBlocks s (.byName (fun name => new.dangerBlocks.contains name)) 2 none ≠ [] := by
  rw [avoidDangerousBlocks_eq]
  by_cases h : E.findBlocks s (.byName (fun name => new.dangerBlocks.contains name)) 2 none = []
  · rw [if_neg (not_not.2 h)]
    exact ⟨fun hm => absurd hm (List.not_mem_nil _), fun hne => absurd h hne⟩
  · rw [if_pos h]
    exact ⟨fun _ => h, fun _ => List.mem_singleton.2 rfl⟩

/-- The trace of one call of `maintainSafety`: the three checks in order, each started only
when the one before it has completed normally. -/
theorem maintainSafety_trace (self : Fields) (E : Env σ) (s : σ) :
    (maintainSafety self E s).trace =
      (checkHealth self E s).trace ++
        match (checkHealth self E s).completion with
        | .normal _ =>
          (checkFood self E (checkHealth self E s).state).trace ++
            match (checkFood self E (checkHealth self E s).state).completion with
            | .normal _ =>
              (avoidDangerousBlocks self E
                (checkFood self E (checkHealth self E s).state).state).trace
            | .throw _ => []
        | .throw _ => [] := by
  simp only [maintainSafety, Eff.bind_eq, Eff.andThen]
  cases (checkHealth self E s).completion with
  | throw e => simp
  | normal u =>
    cases (checkFood self E (checkHealth self E s).state).completion with
    | throw e => simp
    | normal u2 => simp

end Speedrunbot.SurvivalAI

/-! ## Lemmas on `AISpeedrunBot` of `src/speedrunbot.js` -/

namespace Speedrunbot.AISpeedrunBot

variable {ω : Type}

theorem phaseEntries_append (t1 t2 : List Event) :
    phaseEntries (t1 ++ t2) = phaseEntries t1 ++ phaseEntries t2 := by
  simp [phaseEntries, List.filterMap_append]

theorem phaseEntries_of_notEnter {t : List Event} (h : ∀ e ∈ t, e.NotEnter) :
    phaseEntries t = [] := by
  unfold phaseEntries
  rw [List.filterMap_eq_nil_iff]
  intro e he
  cases e with
  | enter method => exact absurd rfl (h _ he method)
  | _ => rfl

/-- A method that records its entry and then runs a body without phase entries has exactly one
phase entry, its own. -/
theorem phaseEntries_entered {σ α : Type} (method : String) (body : Eff σ α)
    (h : Eff.TraceAll Event.NotEnter body) (s : σ) :
    phaseEntries ((Eff.emit (.enter method) >>= fun _ => body) s).trace = [method] := by
  have hb := phaseEntries_of_notEnter (h s)
  simp only [Eff.bind_eq, Eff.andThen, Eff.emit, phaseEntries_append, hb]
  rfl

theorem pathTo_notEnter {σ : Type} (E : Env σ) (target : Vec3) :
    Eff.TraceAll Event.NotEnter (AdvancedPathfinding.pathTo E target) := by
  unfold AdvancedPathfinding.pathTo
  refine Eff.traceAll_tryCatch
    (Eff.traceAll_bind (Eff.traceAll_call _ ?_) fun _ =>
      Eff.traceAll_bind (Eff.traceAll_call _ ?_) fun _ => Eff.traceAll_pure _ _)
    fun _ => Eff.traceAll_bind (Eff.traceAll_emit ?_) fun _ => Eff.traceAll_pure _ _
  all_goals intro m h; cases h

theorem pathTo_normal {σ : Type} (E : Env σ) (target : Vec3) (s : σ) :
    ∃ reached : Bool, (AdvancedPathfinding.pathTo E target s).completion = .normal reached := by
  simp only [AdvancedPathfinding.pathTo, Eff.tryCatch, Eff.bind_eq, Eff.pure_eq, Eff.andThen,
    Eff.call, Eff.emit, Eff.ret]
  cases (E.setMovements s).1 with
  | throw e => exact ⟨false, rfl⟩
  | normal u =>
    cases (E.setGoal ⟨target.x, target.y, target.z⟩ (E.setMovements s).2).1 with
    | throw e => exact ⟨false, rfl⟩
    | normal u2 => exact ⟨true, rfl⟩

theorem engageTarget_notEnter (E : Env (BotState ω)) (target : Entity) :
    Eff.TraceAll Event.NotEnter (CombatAI.engageTarget E target) := by
  unfold CombatAI.engageTarget
  refine Eff.traceAll_bind (Eff.traceAll_update _ _) fun _ =>
    Eff.traceAll_bind (Eff.traceAll_update _ _) fun _ =>
      Eff.traceAll_bind (Eff.traceAll_getState _) fun self => Eff.traceAll_call _ ?_
  intro m h
  cases h

theorem gatherInitialResources_entries (E : Env (BotState ω)) (s : BotState ω) :
    phaseEntries (gatherInitialResources E s).trace = ["gatherInitialResources"] := by
  unfold gatherInitialResources
  refine phaseEntries_entered _ _ ?_ s
  exact Eff.traceAll_bind (Eff.traceAll_emit (fun m h => by cases h)) fun _ =>
    ResourceAI.gatherResources_notEnter _ E

theorem findVillageAndLoot_entries (E : Env (BotState ω)) (s : BotState ω) :
    phaseEntries (findVillageAndLoot E s).trace = ["findVillageAndLoot"] := by
  unfold findVillageAndLoot
  refine phaseEntries_entered _ _ ?_ s
  refine Eff.traceAll_bind (Eff.traceAll_emit (fun m h => by cases h)) fun _ =>
    Eff.traceAll_bind (Eff.traceAll_call _ (fun m h => by cases h)) fun village => ?_
  cases village with
  | none => exact Eff.traceAll_pure _ _
  | some position =>
    exact Eff.traceAll_bind (pathTo_notEnter E position) fun _ =>
      Eff.traceAll_call _ (fun m h => by cases h)

theorem prepareForNether_entries (E : Env (BotState ω)) (s : BotState ω) :
    phaseEntries (prepareForNether E s).trace = ["prepareForNether"] := by
  unfold prepareForNether
  refine phaseEntries_entered _ _ ?_ s
  exact Eff.traceAll_bind (Eff.traceAll_emit (fun m h => by cases h)) fun _ =>
    Eff.traceAll_bind (Eff.traceAll_call _ (fun m h => by cases h)) fun _ =>
      Eff.traceAll_call _ (fun m h => by cases h)

theorem enterAndNavigateNether_entries (E : Env (BotState ω)) (s : BotState ω) :
    phaseEntries (enterAndNavigateNether E s).trace = ["enterAndNavigateNether"] := by
  unfold enterAndNavigateNether
  refine phaseEntries_entered _ _ ?_ s
  exact Eff.traceAll_bind (Eff.traceAll_emit (fun m h => by cases h)) fun _ =>
    Eff.traceAll_bind (Eff.traceAll_call _ (fun m h => by cases h)) fun _ =>
      Eff.traceAll_bind (Eff.traceAll_call _ (fun m h => by cases h)) fun _ =>
        Eff.traceAll_call _ (fun m h => by cases h)

theorem findStronghold_entries (E : Env (BotState ω)) (s : BotState ω) :
    phaseEntries (findStronghold E s).trace = ["findStronghold"] := by
  unfold findStronghold
  refine phaseEntries_entered _ _ ?_ s
  exact Eff.traceAll_bind (Eff.traceAll_emit (fun m h => by cases h)) fun _ =>
    Eff.traceAll_bind (Eff.traceAll_call _ (fun m h => by cases h)) fun _ =>
      Eff.traceAll_call _ (fun m h => by cases h)

theorem prepareForDragon_entries (E : Env (BotState ω)) (s : BotState ω) :
    phaseEntries (prepareForDragon E s).trace = ["prepareForDragon"] := by
  unfold prepareForDragon
  refine phaseEntries_entered _ _ ?_ s
  exact Eff.traceAll_bind (Eff.traceAll_emit (fun m h => by cases h)) fun _ =>
    Eff.traceAll_bind (Eff.traceAll_call _ (fun m h => by cases h)) fun _ =>
      Eff.traceAll_call _ (fun m h => by cases h)

theorem fightDragon_entries (E : Env (BotState ω)) (s : BotState ω) :
    phaseEntries (fightDragon E s).trace = ["fightDragon"] := by
  unfold fightDragon
  refine phaseEntries_entered _ _ ?_ s
  refine Eff.traceAll_bind (Eff.traceAll_emit (fun m h => by cases h)) fun _ =>
    Eff.traceAll_bind (Eff.traceAll_read _ _) fun dragon => ?_
  cases dragon with
  | none => exact Eff.traceAll_pure _ _
  | some target => exact engageTarget_notEnter E target

theorem entries_seq_prefix {σ : Type} {x : Eff σ Unit} {f : Unit → Eff σ Unit} {n : String}
    {l : List String} (hx : ∀ s, phaseEntries (x s).trace = [n])
    (hf : ∀ s, phaseEntries (f () s).trace <+: l) (s : σ) :
    phaseEntries ((x >>= f) s).trace <+: n :: l := by
  simp only [Eff.bind_eq, Eff.andThen]
  cases (x s).completion with
  | throw e =>
    simp only [hx s]
    exact ⟨l, rfl⟩
  | normal u =>
    simp only [phaseEntries_append, hx s]
    obtain ⟨rest, hrest⟩ := hf (x s).state
    exact ⟨rest, by rw [← hrest]; rfl⟩

theorem entries_seq_exact {σ : Type} {x : Eff σ Unit} {f : Unit → Eff σ Unit} {n : String}
    {l : List String} (hx : ∀ s, phaseEntries (x s).trace = [n])
    (hxc : ∀ s, (x s).completion = .normal ())
    (hf : ∀ s, phaseEntries (f () s).trace = l ∧ (f () s).completion = .normal ()) (s : σ) :
    phaseEntries ((x >>= f) s).trace = n :: l ∧ ((x >>= f) s).completion = .normal () := by
  rw [Eff.bind_eq, Eff.andThen_of_normal (hxc s)]
  simp only [phaseEntries_append, hx s, (hf _).1, (hf _).2]
  exact ⟨rfl, trivial⟩

/-- The seven awaited calls in the `try` block of `startSpeedrun`. -/
theorem tryBlock_entries_prefix (E : Env (BotState ω)) (s : BotState ω) :
    phaseEntries ((do
      gatherInitialResources E
      findVillageAndLoot E
      prepareForNether E
      enterAndNavigateNether E
      findStronghold E
      prepareForDragon E
      fightDragon E : Eff (BotState ω) Unit) s).trace <+: writtenOrder := by
  refine entries_seq_prefix (gatherInitialResources_entries E) (fun s => ?_) s
  refine entries_seq_prefix (findVillageAndLoot_entries E) (fun s => ?_) s
  refine entries_seq_prefix (prepareForNether_entries E) (fun s => ?_) s
  refine entries_seq_prefix (enterAndNavigateNether_entries E) (fun s => ?_) s
  refine entries_seq_prefix (findStronghold_entries E) (fun s => ?_) s
  refine entries_seq_prefix (prepareForDragon_entries E) (fun s => ?_) s
  rw [fightDragon_entries]

theorem gatherInitialResources_normal (E : Env (BotState ω)) (s : BotState ω) :
    (gatherInitialResources E s).completion = .normal () := by
  have h := fun s => (ResourceAI.gatherResources_loop E ResourceAI.new.requiredItems s).1
  simp only [gatherInitialResources, Eff.bind_eq, Eff.andThen, Eff.emit]
  exact h _

theorem findVillageAndLoot_normal (E : Env (BotState ω))
    (hhelper : ∀ name s, (E.helper name s).1 = .normal ())
    (hfind : ∀ kind s, ∃ found, (E.findNearestStructure kind s).1 = .normal found)
    (s : BotState ω) :
    (findVillageAndLoot E s).completion = .normal () := by
  obtain ⟨found, hfound⟩ := hfind "village" s
  simp only [findVillageAndLoot, Eff.bind_eq, Eff.andThen, Eff.emit, Eff.call, hfound]
  cases found with
  | none => rfl
  | some position =>
    obtain ⟨reached, hreached⟩ :=
      pathTo_normal E position (E.findNearestStructure "village" s).2
    show ((AdvancedPathfinding.pathTo E position).andThen _ _).completion = _
    rw [Eff.andThen_of_normal hreached]
    simp only [Eff.call, hhelper]

theorem prepareForNether_normal (E : Env (BotState ω))
    (hhelper : ∀ name s, (E.helper name s).1 = .normal ()) (s : BotState ω) :
    (prepareForNether E s).completion = .normal () := by
  simp only [prepareForNether, Eff.bind_eq, Eff.andThen, Eff.emit, Eff.call, hhelper]

theorem enterAndNavigateNether_normal (E : Env (BotState ω))
    (hhelper : ∀ name s, (E.helper name s).1 = .normal ()) (s : BotState ω) :
    (enterAndNavigateNether E s).completion = .normal () := by
  simp only [enterAndNavigateNether, Eff.bind_eq, Eff.andThen, Eff.emit, Eff.call, hhelper]

theorem findStronghold_normal (E : Env (BotState ω))
    (hhelper : ∀ name s, (E.helper name s).1 = .normal ()) (s : BotState ω) :
    (findStronghold E s).completion = .normal () := by
  simp only [findStronghold, Eff.bind_eq, Eff.andThen, Eff.emit, Eff.call, hhelper]

theorem prepareForDragon_normal (E : Env (BotState ω))
    (hhelper : ∀ name s, (E.helper name s).1 = .normal ()) (s : BotState ω) :
    (prepareForDragon E s).completion = .normal () := by
  simp only [prepareForDragon, Eff.bind_eq, Eff.andThen, Eff.emit, Eff.call, hhelper]

theorem fightDragon_normal (E : Env (BotState ω))
    (hexec : ∀ strategy target s, (E.executeStrategy strategy target s).1 = .normal ())
    (s : BotState ω) :
    (fightDragon E s).completion = .normal () := by
  simp only [fightDragon, Eff.bind_eq, Eff.andThen, Eff.emit, Eff.read]
  cases E.nearestEntity s (fun e => decide (e.name = some "ender_dragon")) with
  | none => rfl
  | some target =>
    simp only [CombatAI.engageTarget, Eff.bind_eq, Eff.andThen, Eff.update, Eff.getState,
      Eff.call, hexec]

theorem tryBlock_entries_exact (E : Env (BotState ω))
    (hhelper : ∀ name s, (E.helper name s).1 = .normal ())
    (hfind : ∀ kind s, ∃ found, (E.findNearestStructure kind s).1 = .normal found)
    (hexec : ∀ strategy target s, (E.executeStrategy strategy target s).1 = .normal ())
    (s : BotState ω) :
    phaseEntries ((do
      gatherInitialResources E
      findVillageAndLoot E
      prepareForNether E
      enterAndNavigateNether E
      findStronghold E
      prepareForDragon E
      fightDragon E : Eff (BotState ω) Unit) s).trace = writtenOrder ∧
    ((do
      gatherInitialResources E
      findVillageAndLoot E
      prepareForNether E
      enterAndNavigateNether E
      findStronghold E
      prepareForDragon E
      fightDragon E : Eff (BotState ω) Unit) s).completion = .normal () := by
  refine entries_seq_exact (gatherInitialResources_entries E)
    (gatherInitialResources_normal E) (fun s => ?_) s
  refine entries_seq_exact (findVillageAndLoot_entries E)
    (findVillageAndLoot_normal E hhelper hfind) (fun s => ?_) s
  refine entries_seq_exact (prepareForNether_entries E)
    (prepareForNether_normal E hhelper) (fun s => ?_) s
  refine entries_seq_exact (enterAndNavigateNether_entries E)
    (enterAndNavigateNether_normal E hhelper) (fun s => ?_) s
  refine entries_seq_exact (findStronghold_entries E)
    (findStronghold_normal E hhelper) (fun s => ?_) s
  refine entries_seq_exact (prepareForDragon_entries E)
    (prepareForDragon_normal E hhelper) (fun s => ?_) s
  exact ⟨fightDragon_entries E s, fightDragon_normal E hexec s⟩

/-- The phase entries of `startSpeedrun` are those of its `try` block, run from the state in
which `startTime` is set, and `startSpeedrun` always completes normally. -/
theorem startSpeedrun_spec (E : Env (BotState ω)) (s : BotState ω) :
    phaseEntries (startSpeedrun E s).trace =
      phaseEntries ((do
        gatherInitialResources E
        findVillageAndLoot E
        prepareForNether E
        enterAndNavigateNether E
        findStronghold E
        prepareForDragon E
        fightDragon E : Eff (BotState ω) Unit)
        { s with startTime := some (E.now s) }).trace ∧
    (startSpeedrun E s).completion = .normal () := by
  unfold startSpeedrun
  generalize hb : (do
        gatherInitialResources E
        findVillageAndLoot E
        prepareForNether E
        enterAndNavigateNether E
        findStronghold E
        prepareForDragon E
        fightDragon E : Eff (BotState ω) Unit) = block
  simp only [handleError, Eff.bind_eq, Eff.andThen, Eff.emit, Eff.read, Eff.update,
    Eff.tryCatch]
  cases (block { s with startTime := some (E.now s) }).completion with
  | normal u => simp [phaseEntries]
  | throw e => simp [phaseEntries, List.filterMap_append]

/-! ### No survival check in the speedrun -/

theorem gatherResources_noSurvival {σ : Type} (self : ResourceAI.Fields) (E : Env σ) :
    Eff.TraceAll (fun e => e.isSurvivalReaction = false) (ResourceAI.gatherResources self E) := by
  unfold ResourceAI.gatherResources
  refine Eff.traceAll_forOf _ fun entry =>
    Eff.traceAll_bind (Eff.traceAll_query _ (fun _ => rfl)) fun currentAmount => ?_
  split
  · unfold ResourceAI.collectResource
    refine Eff.traceAll_bind (Eff.traceAll_emit rfl) fun _ => ?_
    split
    · exact Eff.traceAll_pure _ _
    · exact Eff.traceAll_pure _ _
    · refine Eff.traceAll_bind (Eff.traceAll_read _ _) fun blocks =>
        Eff.traceAll_forOf blocks fun block => ?_
      unfold ResourceAI.mineBlock
      exact Eff.traceAll_bind (Eff.traceAll_emit rfl) fun _ =>
        Eff.traceAll_bind (Eff.traceAll_read _ _) fun block =>
          Eff.traceAll_tryCatch
            (Eff.traceAll_bind (Eff.traceAll_call _ rfl) fun _ => Eff.traceAll_call _ rfl)
            fun _ => Eff.traceAll_emit rfl
  · exact Eff.traceAll_pure _ _

theorem startSpeedrun_noSurvival (E : Env (BotState ω)) :
    Eff.TraceAll (fun e => e.isSurvivalReaction = false) (startSpeedrun E) := by
  unfold startSpeedrun
  refine Eff.traceAll_bind (Eff.traceAll_emit rfl) fun _ =>
    Eff.traceAll_bind (Eff.traceAll_read _ _) fun now =>
      Eff.traceAll_bind (Eff.traceAll_update _ _) fun _ =>
        Eff.traceAll_tryCatch ?_ fun error =>
          Eff.traceAll_bind (Eff.traceAll_emit rfl) fun _ => Eff.traceAll_emit rfl
  refine Eff.traceAll_bind ?_ fun _ => Eff.traceAll_bind ?_ fun _ =>
    Eff.traceAll_bind ?_ fun _ => Eff.traceAll_bind ?_ fun _ =>
      Eff.traceAll_bind ?_ fun _ => Eff.traceAll_bind ?_ fun _ => ?_
  · unfold gatherInitialResources
    exact Eff.traceAll_bind (Eff.traceAll_emit rfl) fun _ =>
      Eff.traceAll_bind (Eff.traceAll_emit rfl) fun _ => gatherResources_noSurvival _ E
  · unfold findVillageAndLoot
    refine Eff.traceAll_bind (Eff.traceAll_emit rfl) fun _ =>
      Eff.traceAll_bind (Eff.traceAll_emit rfl) fun _ =>
        Eff.traceAll_bind (Eff.traceAll_call _ rfl) fun village => ?_
    cases village with
    | none => exact Eff.traceAll_pure _ _
    | some position =>
      refine Eff.traceAll_bind ?_ fun _ => Eff.traceAll_call _ rfl
      unfold AdvancedPathfinding.pathTo
      exact Eff.traceAll_tryCatch
        (Eff.traceAll_bind (Eff.traceAll_call _ rfl) fun _ =>
          Eff.traceAll_bind (Eff.traceAll_call _ rfl) fun _ => Eff.traceAll_pure _ _)
        fun _ => Eff.traceAll_bind (Eff.traceAll_emit rfl) fun _ => Eff.traceAll_pure _ _
  · unfold prepareForNether
    exact Eff.traceAll_bind (Eff.traceAll_emit rfl) fun _ =>
      Eff.traceAll_bind (Eff.traceAll_emit rfl) fun _ =>
        Eff.traceAll_bind (Eff.traceAll_call _ rfl) fun _ => Eff.traceAll_call _ rfl
  · unfold enterAndNavigateNether
    exact Eff.traceAll_bind (Eff.traceAll_emit rfl) fun _ =>
      Eff.traceAll_bind (Eff.traceAll_emit rfl) fun _ =>
        Eff.traceAll_bind (Eff.traceAll_call _ rfl) fun _ =>
          Eff.traceAll_bind (Eff.traceAll_call _ rfl) fun _ => Eff.traceAll_call _ rfl
  · unfold findStronghold
    exact Eff.traceAll_bind (Eff.traceAll_emit rfl) fun _ =>
      Eff.traceAll_bind (Eff.traceAll_emit rfl) fun _ =>
        Eff.traceAll_bind (Eff.traceAll_call _ rfl) fun _ => Eff.traceAll_call _ rfl
  · unfold prepareForDragon
    exact Eff.traceAll_bind (Eff.traceAll_emit rfl) fun _ =>
      Eff.traceAll_bind (Eff.traceAll_emit rfl) fun _ =>
        Eff.traceAll_bind (Eff.traceAll_call _ rfl) fun _ => Eff.traceAll_call _ rfl
  · unfold fightDragon
    refine Eff.traceAll_bind (Eff.traceAll_emit rfl) fun _ =>
      Eff.traceAll_bind (Eff.traceAll_emit rfl) fun _ =>
        Eff.traceAll_bind (Eff.traceAll_read _ _) fun dragon => ?_
    cases dragon with
    | none => exact Eff.traceAll_pure _ _
    | some target =>
      unfold CombatAI.engageTarget
      exact Eff.traceAll_bind (Eff.traceAll_update _ _) fun _ =>
        Eff.traceAll_bind (Eff.traceAll_update _ _) fun _ =>
          Eff.traceAll_bind (Eff.traceAll_getState _) fun self => Eff.traceAll_call _ rfl

end Speedrunbot.AISpeedrunBot

/-! ## Lemmas on the combat loops of `CombatAI` of `src/speedrunbot.js` -/

namespace Speedrunbot.CombatAI

variable {ω : Type}

/-- The trace of one turn of a combat loop: the start of the turn, the first call, and the
second call when the first has completed normally. -/
theorem cycle_trace (E : Env (BotState ω)) (target : Entity) (e1 e2 : Event)
    (a1 a2 : Action (BotState ω)) (s : BotState ω) :
    ((do
      cycleStart E target
      Eff.call e1 a1
      Eff.call e2 a2 : Eff (BotState ω) Unit) s).trace =
    .cycle (E.targetHealth s target) s.combat.isInCombat :: e1 ::
      (match (a1 s).1 with
        | .normal _ => [e2]
        | .throw _ => []) := by
  simp only [cycleStart, Eff.bind_eq, Eff.andThen, Eff.getState, Eff.emit, Eff.call]
  cases (a1 s).1 <;> rfl

theorem cycle_count (E : Env (BotState ω)) (target : Entity) (e1 e2 : Event)
    (a1 a2 : Action (BotState ω)) (h1 : e1.isCycle = false) (h2 : e2.isCycle = false)
    (s : BotState ω) :
    cycles ((do
      cycleStart E target
      Eff.call e1 a1
      Eff.call e2 a2 : Eff (BotState ω) Unit) s).trace = 1 := by
  rw [cycle_trace]
  have hcyc : ∀ h c, Event.isCycle (.cycle h c) = true := fun _ _ => rfl
  cases (a1 s).1 <;> simp [cycles, List.countP_cons, hcyc, h1, h2]

theorem cycle_events (E : Env (BotState ω)) (target : Entity) (e1 e2 : Event)
    (a1 a2 : Action (BotState ω)) (h1 : e1.isCycle = false) (h2 : e2.isCycle = false)
    (s : BotState ω)
    (ht : (JSNum.lt (.fin 0) (E.targetHealth s target) && s.combat.isInCombat) = true) :
    ∀ e ∈ ((do
      cycleStart E target
      Eff.call e1 a1
      Eff.call e2 a2 : Eff (BotState ω) Unit) s).trace,
      ∀ h c, e = Event.cycle h c → h.Positive ∧ c = true := by
  rw [cycle_trace]
  rw [Bool.and_eq_true, JSNum.lt_zero_iff] at ht
  intro e he h c hec
  subst hec
  rcases List.mem_cons.1 he with heq | he
  · injection heq with hh hcc
    rw [hh, hcc]
    exact ht
  · rcases List.mem_cons.1 he with heq | he
    · subst heq
      exact Bool.noConfusion h1
    · cases hc : (a1 s).1 with
      | normal u =>
        rw [hc] at he
        simp only [List.mem_singleton] at he
        subst he
        exact Bool.noConfusion h2
      | throw err =>
        rw [hc] at he
        simp at he

theorem test_iff (E : Env (BotState ω)) (target : Entity) (s : BotState ω) :
    (JSNum.lt (.fin 0) (E.targetHealth s target) && s.combat.isInCombat) = true ↔
      (E.targetHealth s target).Positive ∧ s.combat.isInCombat = true := by
  rw [Bool.and_eq_true, JSNum.lt_zero_iff]

theorem test_false_of (E : Env (BotState ω)) (target : Entity) (s : BotState ω)
    (h : ¬ (E.targetHealth s target).Positive ∨ s.combat.isInCombat = false) :
    (JSNum.lt (.fin 0) (E.targetHealth s target) && s.combat.isInCombat) = false := by
  rw [Bool.eq_false_iff, ne_eq, test_iff]
  rintro ⟨hpos, hflag⟩
  rcases h with h | h
  · exact h hpos
  · rw [h] at hflag
    exact Bool.false_ne_true hflag

theorem callThenLoop_some {σ : Type} (e : Event) (callee : σ → Completion Unit × σ)
    (loop : σ → Option (Result σ Unit)) (s : σ) (r : Result σ Unit)
    (h : callThenLoop e callee loop s = some r) :
    (r.trace = [e] ∧ ∃ err, r.completion = .throw err) ∨
      ∃ r', loop (callee s).2 = some r' ∧ r.completion = r'.completion ∧
        r.state = r'.state ∧ r.trace = e :: r'.trace := by
  unfold callThenLoop at h
  cases hc : (callee s).1 with
  | throw err =>
    rw [hc] at h
    simp only [Option.some.injEq] at h
    subst h
    exact Or.inl ⟨rfl, err, rfl⟩
  | normal u =>
    rw [hc] at h
    simp only [Option.map_eq_some'] at h
    obtain ⟨r', hr', rfl⟩ := h
    exact Or.inr ⟨r', hr', rfl, rfl, rfl⟩

/-- The four facts about a combat loop whose turn is the start of the turn followed by two
calls: turns start only when the test holds, there is no turn when the test fails on entry, the
loop completes normally only in a state in which the test fails, and it ends within as many
turns as a measure counts when every turn lowers the measure. -/
theorem combatLoop_props (E : Env (BotState ω)) (target : Entity) (e1 e2 : Event)
    (a1 a2 : Action (BotState ω)) (h1 : e1.isCycle = false) (h2 : e2.isCycle = false) :
    (∀ (fuel : Nat) (s : BotState ω) (r : Result (BotState ω) Unit),
      whileLoop
        (fun st => JSNum.lt (.fin 0) (E.targetHealth st target) && st.combat.isInCombat)
        (do
          cycleStart E target
          Eff.call e1 a1
          Eff.call e2 a2) fuel s = some r →
      ∀ h c, Event.cycle h c ∈ r.trace → h.Positive ∧ c = true) ∧
    (∀ (fuel : Nat) (s : BotState ω),
      (¬ (E.targetHealth s target).Positive ∨ s.combat.isInCombat = false) →
      whileLoop
        (fun st => JSNum.lt (.fin 0) (E.targetHealth st target) && st.combat.isInCombat)
        (do
          cycleStart E target
          Eff.call e1 a1
          Eff.call e2 a2) (fuel + 1) s = some ⟨.normal (), s, []⟩) ∧
    (∀ (fuel : Nat) (s : BotState ω) (r : Result (BotState ω) Unit),
      whileLoop
        (fun st => JSNum.lt (.fin 0) (E.targetHealth st target) && st.combat.isInCombat)
        (do
          cycleStart E target
          Eff.call e1 a1
          Eff.call e2 a2) fuel s = some r →
      r.completion = .normal () →
      ¬ ((E.targetHealth r.state target).Positive ∧ r.state.combat.isInCombat = true)) ∧
    (∀ hp : BotState ω → Nat,
      (∀ s, (E.targetHealth s target).Positive ∧ s.combat.isInCombat = true →
        hp ((do
          cycleStart E target
          Eff.call e1 a1
          Eff.call e2 a2 : Eff (BotState ω) Unit) s).state + 1 ≤ hp s) →
      ∀ (fuel : Nat) (s : BotState ω), hp s < fuel →
        ∃ r, whileLoop
          (fun st => JSNum.lt (.fin 0) (E.targetHealth st target) && st.combat.isInCombat)
          (do
            cycleStart E target
            Eff.call e1 a1
            Eff.call e2 a2) fuel s = some r ∧ cycles r.trace ≤ hp s) := by
  refine ⟨?_, ?_, ?_, ?_⟩
  · intro fuel s r hr h c hmem
    exact whileLoop_trace_all _ _ (fun e => ∀ h c, e = Event.cycle h c → h.Positive ∧ c = true)
      (fun s ht => cycle_events E target e1 e2 a1 a2 h1 h2 s ht) fuel s r hr _ hmem h c rfl
  · intro fuel s h
    exact whileLoop_of_false _ _ fuel s (test_false_of E target s h)
  · intro fuel s r hr hnormal hboth
    have hfalse := whileLoop_exit _ _ fuel s r hr hnormal
    have htrue := (test_iff E target r.state).2 hboth
    simp only at hfalse
    rw [htrue] at hfalse
    exact Bool.noConfusion hfalse
  · intro hp hdec fuel s hlt
    exact whileLoop_terminates _ _ hp
      (fun s ht => hdec s ((test_iff E target s).1 ht))
      (cycle_count E target e1 e2 a1 a2 h1 h2) fuel s hlt

end Speedrunbot.CombatAI

/-! ## Lemmas on `ImprovedSpeedrunBot` of `src/Improvedbot.js` -/

namespace Improvedbot.ImprovedSpeedrunBot

variable {ω : Type}

/-- One turn of the loop of `executeSpeedrunPhases`. -/
theorem executeSpeedrunPhases_turn (E : Env ω) (phase : String) (st : State ω) :
    (do
      Eff.update (fun st => { st with state := { st.state with currentPhase := some phase } })
      let self ← Eff.getState
      Eff.call (.invoke phase self.state.currentPhase) (outside (E.method phase))
      : Eff (State ω) Unit) st =
    ⟨(E.method phase st.world).1,
      { world := (E.method phase st.world).2,
        state := { st.state with currentPhase := some phase } },
      [.invoke phase (some phase)]⟩ := by
  simp [Eff.bind_eq, Eff.andThen, Eff.update, Eff.getState, Eff.call, outside]

theorem phases_loop_prefix (E : Env ω) (ps : List String) (st : State ω) :
    (Eff.forOf ps (fun phase => (do
      Eff.update (fun st => { st with state := { st.state with currentPhase := some phase } })
      let self ← Eff.getState
      Eff.call (.invoke phase self.state.currentPhase) (outside (E.method phase))
      : Eff (State ω) Unit)) st).trace <+: ps.map (fun p => Event.invoke p (some p)) := by
  induction ps generalizing st with
  | nil => exact ⟨[], rfl⟩
  | cons p rest ih =>
    unfold Eff.forOf
    cases hc : (E.method p st.world).1 with
    | throw e =>
      rw [Eff.andThen_of_throw (e := e) (by rw [executeSpeedrunPhases_turn]; exact hc),
        executeSpeedrunPhases_turn]
      exact ⟨rest.map (fun p => Event.invoke p (some p)), rfl⟩
    | normal u =>
      rw [Eff.andThen_of_normal (a := u) (by rw [executeSpeedrunPhases_turn]; exact hc),
        executeSpeedrunPhases_turn]
      obtain ⟨tail, htail⟩ := ih
        { world := (E.method p st.world).2, state := { st.state with currentPhase := some p } }
      exact ⟨tail, by rw [List.map_cons, ← htail]; rfl⟩

theorem phases_loop_exact (E : Env ω) (hok : ∀ phase w, (E.method phase w).1 = .normal ())
    (ps : List String) (st : State ω) :
    (Eff.forOf ps (fun phase => (do
      Eff.update (fun st => { st with state := { st.state with currentPhase := some phase } })
      let self ← Eff.getState
      Eff.call (.invoke phase self.state.currentPhase) (outside (E.method phase))
      : Eff (State ω) Unit)) st).trace = ps.map (fun p => Event.invoke p (some p)) ∧
    (Eff.forOf ps (fun phase => (do
      Eff.update (fun st => { st with state := { st.state with currentPhase := some phase } })
      let self ← Eff.getState
      Eff.call (.invoke phase self.state.currentPhase) (outside (E.method phase))
      : Eff (State ω) Unit)) st).completion = .normal () ∧
    (Eff.forOf ps (fun phase => (do
      Eff.update (fun st => { st with state := { st.state with currentPhase := some phase } })
      let self ← Eff.getState
      Eff.call (.invoke phase self.state.currentPhase) (outside (E.method phase))
      : Eff (State ω) Unit)) st).state.state.currentPhase =
        ps.foldl (fun _ p => some p) st.state.currentPhase := by
  induction ps generalizing st with
  | nil => exact ⟨rfl, rfl, rfl⟩
  | cons p rest ih =>
    unfold Eff.forOf
    rw [Eff.andThen_of_normal (a := ()) (by rw [executeSpeedrunPhases_turn]; exact hok p _),
      executeSpeedrunPhases_turn]
    obtain ⟨h1, h2, h3⟩ := ih
      { world := (E.method p st.world).2, state := { st.state with currentPhase := some p } }
    exact ⟨by rw [List.map_cons, ← h1]; rfl, h2, by rw [List.foldl_cons, ← h3]⟩

theorem phases_loop_failure (E : Env ω) (error : JSError) (pre : List String) (p : String)
    (post : List String) (hpre : ∀ q ∈ pre, ∀ w, (E.method q w).1 = .normal ())
    (hp : ∀ w, (E.method p w).1 = .throw error) (st : State ω) :
    (Eff.forOf (pre ++ p :: post) (fun phase => (do
      Eff.update (fun st => { st with state := { st.state with currentPhase := some phase } })
      let self ← Eff.getState
      Eff.call (.invoke phase self.state.currentPhase) (outside (E.method phase))
      : Eff (State ω) Unit)) st).trace = (pre ++ [p]).map (fun q => Event.invoke q (some q)) ∧
    (Eff.forOf (pre ++ p :: post) (fun phase => (do
      Eff.update (fun st => { st with state := { st.state with currentPhase := some phase } })
      let self ← Eff.getState
      Eff.call (.invoke phase self.state.currentPhase) (outside (E.method phase))
      : Eff (State ω) Unit)) st).completion = .throw error ∧
    (Eff.forOf (pre ++ p :: post) (fun phase => (do
      Eff.update (fun st => { st with state := { st.state with currentPhase := some phase } })
      let self ← Eff.getState
      Eff.call (.invoke phase self.state.currentPhase) (outside (E.method phase))
      : Eff (State ω) Unit)) st).state.state.currentPhase = some p := by
  induction pre generalizing st with
  | nil =>
    rw [List.nil_append]
    unfold Eff.forOf
    rw [Eff.andThen_of_throw (e := error) (by rw [executeSpeedrunPhases_turn]; exact hp _),
      executeSpeedrunPhases_turn]
    exact ⟨rfl, rfl, rfl⟩
  | cons q rest ih =>
    rw [List.cons_append]
    unfold Eff.forOf
    rw [Eff.andThen_of_normal (a := ())
        (by rw [executeSpeedrunPhases_turn]; exact hpre q (List.mem_cons_self _ _) _),
      executeSpeedrunPhases_turn]
    obtain ⟨h1, h2, h3⟩ := ih (fun q' hq' => hpre q' (List.mem_cons_of_mem _ hq'))
      { world := (E.method q st.world).2, state := { st.state with currentPhase := some q } }
    exact ⟨by rw [List.cons_append q rest [p], List.map_cons, ← h1]; rfl, h2, h3⟩

theorem invoked_map_invoke (ps : List String) :
    invoked (ps.map (fun q => Event.invoke q (some q))) = ps := by
  induction ps with
  | nil => rfl
  | cons q rest ih =>
    rw [List.map_cons]
    show q :: invoked (rest.map (fun q => Event.invoke q (some q))) = q :: rest
    rw [ih]

/-- The catch block of `startSpeedrun`, run from a state `st` with the caught error. -/
theorem startSpeedrun_handler_eq (E : Env ω) (error : JSError) (st : State ω) :
    (do
      let _ ← ErrorHandler.handle (fun st => E.toISOString st.world) error "Speedrun"
      Eff.call (.helper "handleSpeedrunFailure") (outside E.handleSpeedrunFailure)
      : Eff (State ω) Unit) st =
    ⟨(E.handleSpeedrunFailure st.world).1,
      { st with world := (E.handleSpeedrunFailure st.world).2 },
      [.console ("[" ++ E.toISOString st.world ++ "] Error in " ++ "Speedrun" ++ ":"),
        .helper "handleSpeedrunFailure"]⟩ := by
  simp [ErrorHandler.handle, ErrorHandler.logError, Eff.bind_eq, Eff.pure_eq, Eff.andThen,
    Eff.read, Eff.emit, Eff.ret, Eff.call, outside]

/-- What `startSpeedrun` does when `executeSpeedrunPhases` ends in an exception. -/
theorem startSpeedrun_of_throw (E : Env ω) (error : JSError) (st : State ω)
    (hc : (executeSpeedrunPhases E (started E st)).completion = .throw error) :
    startSpeedrun E st =
      ⟨(E.handleSpeedrunFailure (executeSpeedrunPhases E (started E st)).state.world).1,
        { (executeSpeedrunPhases E (started E st)).state with
          world :=
            (E.handleSpeedrunFailure (executeSpeedrunPhases E (started E st)).state.world).2 },
        (executeSpeedrunPhases E (started E st)).trace ++
          [.console ("[" ++ E.toISOString (executeSpeedrunPhases E (started E st)).state.world
              ++ "] Error in " ++ "Speedrun" ++ ":"),
            .helper "handleSpeedrunFailure"]⟩ := by
  have h := @Eff.tryCatch_of_throw _ _ _
    (fun error => (do
      let _ ← ErrorHandler.handle (fun st => E.toISOString st.world) error "Speedrun"
      Eff.call (.helper "handleSpeedrunFailure") (outside E.handleSpeedrunFailure)
      : Eff (State ω) Unit)) _ _ hc
  simp only [startSpeedrun_handler_eq] at h
  unfold startSpeedrun
  simp only [Eff.bind_eq, Eff.andThen, Eff.update, Eff.read, List.nil_append]
  simp only [Eff.bind_eq, started] at h
  rw [h]
  rfl

theorem mem_invoked_of_mem {q : String} {c : Option String} {trace : List Event}
    (h : Event.invoke q c ∈ trace) : q ∈ invoked trace := by
  unfold invoked
  rw [List.mem_filterMap]
  exact ⟨_, h, rfl⟩

theorem invoked_append (t1 t2 : List Event) :
    invoked (t1 ++ t2) = invoked t1 ++ invoked t2 := by
  simp [invoked, List.filterMap_append]

end Improvedbot.ImprovedSpeedrunBot

/-! ## Lemmas on `ConnectionManager` of `src/bot.js` -/

namespace BotJs.ConnectionManager

variable {ω : Type}

theorem reconnect_eq (st : State ω) :
    reconnect st =
      if st.reconnectAttempts < 5 then
        ⟨.normal (),
          { st with reconnectAttempts := st.reconnectAttempts + 1,
                    pendingTimers := st.pendingTimers + 1 },
          [.setTimeout 5000]⟩
      else ⟨.normal (), st, []⟩ := by
  by_cases h : st.reconnectAttempts < 5
  · simp [reconnect, setTimeout, Eff.bind_eq, Eff.andThen, Eff.getState, Eff.update, Eff.emit, h]
  · simp [reconnect, Eff.bind_eq, Eff.pure_eq, Eff.andThen, Eff.getState, Eff.ret, h]

theorem handleDisconnect_eq (st : State ω) :
    handleDisconnect st =
      ⟨.normal (), (reconnect st).state,
        .console "انقطع الاتصال. جاري إعادة المحاولة..." :: (reconnect st).trace⟩ := by
  rw [reconnect_eq]
  by_cases h : st.reconnectAttempts < 5
  · simp [handleDisconnect, reconnect_eq, Eff.bind_eq, Eff.andThen, Eff.emit, h]
  · simp [handleDisconnect, reconnect_eq, Eff.bind_eq, Eff.andThen, Eff.emit, h]

theorem reconnectCallback_spec (E : Env ω) (st : State ω) :
    (reconnectCallback E st).state.reconnectAttempts = st.reconnectAttempts ∧
      scheduled (reconnectCallback E st).trace = 0 := by
  simp only [reconnectCallback, Eff.bind_eq, Eff.andThen, Eff.call, Eff.update, outside]
  cases (E.createBot st.world).1 <;> simp [scheduled]

/-- One turn moves the counter by one exactly when it is a call of `reconnect` below the cap,
and schedules a reconnection exactly then. -/
theorem turn_spec (E : Env ω) (i : Input) (st : State ω) :
    (turn E i st).state.reconnectAttempts =
        st.reconnectAttempts + reconnectCalls [i] * (if st.reconnectAttempts < 5 then 1 else 0) ∧
      scheduled (turn E i st).trace =
        reconnectCalls [i] * (if st.reconnectAttempts < 5 then 1 else 0) := by
  cases i with
  | handleDisconnect =>
    simp only [turn, handleDisconnect_eq, reconnect_eq]
    by_cases h : st.reconnectAttempts < 5 <;> simp [h, reconnectCalls, scheduled]
  | reconnect =>
    simp only [turn, reconnect_eq]
    by_cases h : st.reconnectAttempts < 5 <;> simp [h, reconnectCalls, scheduled]
  | timer =>
    simp only [turn]
    by_cases h : 0 < st.pendingTimers
    · obtain ⟨h1, h2⟩ := reconnectCallback_spec E { st with pendingTimers := st.pendingTimers - 1 }
      simp only [h, if_true, h1, h2]
      simp [reconnectCalls]
    · simp [h, reconnectCalls, scheduled]
  | spawn =>
    simp [turn, Eff.call, outside, reconnectCalls, scheduled]

theorem reconnectCalls_cons (i : Input) (rest : List Input) :
    reconnectCalls (i :: rest) = reconnectCalls [i] + reconnectCalls rest := by
  simp only [reconnectCalls, List.countP_cons, List.countP_nil]
  omega

theorem scheduled_append (t1 t2 : List Event) :
    scheduled (t1 ++ t2) = scheduled t1 + scheduled t2 := by
  simp [scheduled, List.countP_append]

theorem reconnectCalls_single_le (i : Input) : reconnectCalls [i] ≤ 1 := by
  cases i <;> simp [reconnectCalls]

/-- The counter and the number of scheduled reconnections after a sequence of turns from a
state within the cap. -/
theorem run_spec (E : Env ω) (inputs : List Input) (st : State ω)
    (hcap : st.reconnectAttempts ≤ 5) :
    (run E inputs st).1.reconnectAttempts = min (st.reconnectAttempts + reconnectCalls inputs) 5 ∧
      st.reconnectAttempts + scheduled (run E inputs st).2 =
        min (st.reconnectAttempts + reconnectCalls inputs) 5 := by
  induction inputs generalizing st with
  | nil => simp [run, reconnectCalls, scheduled, hcap]
  | cons i rest ih =>
    obtain ⟨h1, h2⟩ := turn_spec E i st
    have hle := reconnectCalls_single_le i
    have hcap' : (turn E i st).state.reconnectAttempts ≤ 5 := by
      rw [h1]
      split_ifs <;> nlinarith
    obtain ⟨ih1, ih2⟩ := ih (turn E i st).state hcap'
    rw [reconnectCalls_cons i rest]
    simp only [run, scheduled_append]
    rw [ih1, h2]
    rw [h1] at ih2 ⊢
    by_cases hlt : st.reconnectAttempts < 5
    · simp only [hlt, if_true, mul_one] at ih2 ⊢
      constructor <;> omega
    · simp only [hlt, if_false, mul_zero, add_zero] at ih2 ⊢
      constructor <;> omega

theorem reconnectCalls_append (l1 l2 : List Input) :
    reconnectCalls (l1 ++ l2) = reconnectCalls l1 + reconnectCalls l2 := by
  simp [reconnectCalls, List.countP_append]

theorem reconnectCalls_replicate_handleDisconnect (n : Nat) :
    reconnectCalls (List.replicate n .handleDisconnect) = n := by
  induction n with
  | zero => rfl
  | succ k ih =>
    rw [List.replicate_succ, reconnectCalls_cons, ih]
    simp [reconnectCalls]
    omega

end BotJs.ConnectionManager

/-! ## Lemmas on `Array.prototype.sort` -/

theorem insertBy_perm {α : Type} (comparefn : α → α → Int) (x : α) (l : List α) :
    (insertBy comparefn x l).Perm (x :: l) := by
  induction l with
  | nil => exact List.Perm.refl _
  | cons y ys ih =>
    unfold insertBy
    split_ifs
    · exact List.Perm.refl _
    · exact (List.Perm.cons y ih).trans (List.Perm.swap x y ys)

theorem arraySort_perm {α : Type} (comparefn : α → α → Int) (l : List α) :
    (arraySort comparefn l).Perm l := by
  induction l with
  | nil => exact List.Perm.refl _
  | cons x xs ih =>
    unfold arraySort
    exact (insertBy_perm comparefn x _).trans (List.Perm.cons x ih)

theorem insertBy_sorted {α : Type} (key : α → Int) (x : α) (l : List α)
    (h : l.Pairwise (fun a b => key a ≤ key b)) :
    (insertBy (fun a b => key a - key b) x l).Pairwise (fun a b => key a ≤ key b) := by
  induction l with
  | nil => simp [insertBy]
  | cons y ys ih =>
    rw [List.pairwise_cons] at h
    unfold insertBy
    split_ifs with hxy
    · refine List.pairwise_cons.2 ⟨?_, List.pairwise_cons.2 h⟩
      intro b hb
      rcases List.mem_cons.1 hb with rfl | hb
      · omega
      · have := h.1 b hb
        omega
    · refine List.pairwise_cons.2 ⟨?_, ih h.2⟩
      intro b hb
      rcases List.mem_cons.1 ((insertBy_perm _ x ys).subset hb) with rfl | hb
      · omega
      · exact h.1 b hb

theorem arraySort_sorted {α : Type} (key : α → Int) (l : List α) :
    (arraySort (fun a b => key a - key b) l).Pairwise (fun a b => key a ≤ key b) := by
  induction l with
  | nil => simp [arraySort]
  | cons x xs ih =>
    unfold arraySort
    exact insertBy_sorted key x _ ih

theorem insertBy_filter_key {α : Type} (key : α → Int) (p : Int) (x : α) (l : List α) :
    (insertBy (fun a b => key a - key b) x l).filter (fun a => decide (key a = p)) =
      (x :: l).filter (fun a => decide (key a = p)) := by
  induction l with
  | nil => simp [insertBy]
  | cons y ys ih =>
    unfold insertBy
    split_ifs with hxy
    · rfl
    · rw [List.filter_cons, ih]
      by_cases hx : key x = p
      · have hy : key y ≠ p := by omega
        simp [List.filter_cons, hx, hy]
      · simp [List.filter_cons, hx]

theorem arraySort_stable {α : Type} (key : α → Int) (p : Int) (l : List α) :
    (arraySort (fun a b => key a - key b) l).filter (fun a => decide (key a = p)) =
      l.filter (fun a => decide (key a = p)) := by
  induction l with
  | nil => simp [arraySort]
  | cons x xs ih =>
    unfold arraySort
    rw [insertBy_filter_key, List.filter_cons, List.filter_cons, ih]

/-! ## Properties -/

open Speedrunbot in
/-- C1: `CombatAI.determineStrategy` is total and depends on the target's name and type
only. It returns `'dragon'` for the name `'ender_dragon'` whatever the type is, otherwise
`'player'` for the type `'player'`, otherwise `'hostile'`; the value is always one of the three
keys that `initializeStrategies` registers, and any other call, on any `CombatAI` state, with a
target of the same name and type returns the same value. -/
theorem C1_determineStrategy_classifies (self : CombatAI.Fields) (target : Entity) :
    (target.name = some "ender_dragon" → CombatAI.determineStrategy self target = "dragon") ∧
    (target.name ≠ some "ender_dragon" → target.type = some "player" →
      CombatAI.determineStrategy self target = "player") ∧
    (target.name ≠ some "ender_dragon" → target.type ≠ some "player" →
      CombatAI.determineStrategy self target = "hostile") ∧
    CombatAI.determineStrategy self target ∈ ["dragon", "player", "hostile"] ∧
    CombatAI.determineStrategy self target ∈ CombatAI.new.combatStrategies ∧
    (∀ (other : CombatAI.Fields) (target' : Entity),
      target'.name = target.name → target'.type = target.type →
      CombatAI.determineStrategy other target' = CombatAI.determineStrategy self target) := by
  refine ⟨?_, ?_, ?_, ?_, ?_, ?_⟩
  · intro h
    simp [CombatAI.determineStrategy, h]
  · intro h1 h2
    simp [CombatAI.determineStrategy, h1, h2]
  · intro h1 h2
    simp [CombatAI.determineStrategy, h1, h2]
  · unfold CombatAI.determineStrategy
    split_ifs <;> simp
  · have hkeys : CombatAI.new.combatStrategies = ["dragon", "hostile", "player"] := by decide
    rw [hkeys]
    unfold CombatAI.determineStrategy
    split_ifs <;> simp
  · intro other target' hn ht
    simp [CombatAI.determineStrategy, hn, ht]

open Speedrunbot in
/-- C1, at a concrete input: a target named `'ender_dragon'` of type `'player'` is classified
`'dragon'`. -/
theorem C1_determineStrategy_classifies_witness :
    CombatAI.determineStrategy CombatAI.new
      { name := some "ender_dragon", type := some "player" } = "dragon" :=
  (C1_determineStrategy_classifies CombatAI.new
    { name := some "ender_dragon", type := some "player" }).1 rfl

open Improvedbot in
/-- C2, the code at the failing input: for a target whose name is `'ender_dragon'` and whose
type is `'player'`, `EnhancedCombatAI.getStrategy` returns the strategy registered under
`'player'`, not the one registered under `'dragon'`. -/
theorem C2_getStrategy_dragon_named_player :
    EnhancedCombatAI.getStrategy EnhancedCombatAI.new
        { name := some "ender_dragon", type := some "player" }
      = some EnhancedCombatAI.Strategy.PlayerStrategy ∧
    EnhancedCombatAI.mapGet EnhancedCombatAI.new.strategies "dragon"
      = some EnhancedCombatAI.Strategy.DragonStrategy := by
  decide

open Speedrunbot in
/-- C3: `ResourceAI.gatherResources` never starts an acquisition with a deficit of 0 or less.
From every state and with every behaviour of the bot, it completes normally after reading the
held count of wood, cobblestone, iron_ingot and food once each, in this order, and the calls of
`collectResource` it made are exactly the acquisitions the specification asks for given the
counts it read: one for each entry whose held count is strictly below the required amount, in
declaration order, with the amount `max(0, required - held)`, and none for the other entries.
Hence every amount passed is positive and at most the required amount, and no item is collected
twice. When the inventory reads the same throughout, the held counts are those of this
inventory. -/
theorem C3_gatherResources_acquires_deficits {σ : Type} (E : Env σ) (s : σ) :
    (ResourceAI.gatherResources ResourceAI.new E s).completion = .normal () ∧
    (ResourceAI.countReads (ResourceAI.gatherResources ResourceAI.new E s).trace).map Prod.fst
      = ["wood", "cobblestone", "iron_ingot", "food"] ∧
    ResourceAI.collectCalls (ResourceAI.gatherResources ResourceAI.new E s).trace
      = ResourceAI.expectedAcquisitions ResourceAI.new.requiredItems
          ((ResourceAI.countReads
            (ResourceAI.gatherResources ResourceAI.new E s).trace).map Prod.snd) ∧
    ((ResourceAI.collectCalls
        (ResourceAI.gatherResources ResourceAI.new E s).trace).map Prod.fst).Sublist
      ["wood", "cobblestone", "iron_ingot", "food"] ∧
    (∀ c ∈ ResourceAI.collectCalls (ResourceAI.gatherResources ResourceAI.new E s).trace,
      0 < c.2 ∧ ∃ entry ∈ ResourceAI.new.requiredItems, c.1 = entry.1 ∧ c.2 ≤ entry.2) ∧
    (∀ inv : String → Nat, (∀ s' item, E.inventoryCount s' item = inv item) →
      ResourceAI.collectCalls (ResourceAI.gatherResources ResourceAI.new E s).trace
        = ResourceAI.expectedAcquisitions ResourceAI.new.requiredItems
            (ResourceAI.new.requiredItems.map (fun entry => inv entry.1))) := by
  obtain ⟨hc, hkeys, hcalls, hinv⟩ :=
    ResourceAI.gatherResources_loop E ResourceAI.new.requiredItems s
  have hnew : (⟨ResourceAI.new.requiredItems⟩ : ResourceAI.Fields) = ResourceAI.new := rfl
  rw [hnew] at hc hkeys hcalls hinv
  refine ⟨hc, hkeys, hcalls, ?_, ?_, ?_⟩
  · rw [hcalls]
    exact ResourceAI.expectedAcquisitions_keys_sublist _ _
  · intro c hmem
    rw [hcalls] at hmem
    exact ResourceAI.expectedAcquisitions_pos _ _ c hmem
  · intro inv h
    rw [hcalls, hinv inv h]

open Speedrunbot in
/-- C3, at a concrete input: holding 16 wood, 4 food and neither cobblestone nor iron,
`gatherResources` calls `collectResource` for cobblestone (32), iron_ingot (12) and food (12),
and not for wood. -/
theorem C3_gatherResources_acquires_deficits_witness :
    ResourceAI.collectCalls
        (ResourceAI.gatherResources ResourceAI.new
          (fixedEnv (.fin 20) (.fin 20) (inventoryOf [("wood", 16), ("food", 4)]) []) ()).trace
      = [("cobblestone", 32), ("iron_ingot", 12), ("food", 12)] := by
  rw [(C3_gatherResources_acquires_deficits
    (fixedEnv (.fin 20) (.fin 20) (inventoryOf [("wood", 16), ("food", 4)]) []) ()).2.2.2.2.2
    (inventoryOf [("wood", 16), ("food", 4)]) (fun _ _ => rfl)]
  decide

open Improvedbot in
/-- C4, refuted as stated: with 16 wood and 4 food held and neither stone nor iron,
`EnhancedResourceAI.createGatheringPlan` does not return `[food:12, stone:32, iron:12]`. -/
theorem C4_createGatheringPlan_not_deficits :
    (EnhancedResourceAI.createGatheringPlan (inventoryOf [("wood", 16), ("food", 4)])).completion
      ≠ .normal
          [ { type := "food", amount := 12, priority := 1 },
            { type := "stone", amount := 32, priority := 2 },
            { type := "iron", amount := 12, priority := 3 } ] := by
  decide

open Improvedbot in
/-- C4, amended: the plan returned by `EnhancedResourceAI.createGatheringPlan` does not depend
on the held amounts. From every state it is `[wood:16, food:16, stone:32, iron:12]`: each
resource kind carries its desired amount and no kind is omitted; the call changes nothing and
calls nothing. -/
theorem C4_createGatheringPlan_fixed {σ : Type} (s : σ) :
    (EnhancedResourceAI.createGatheringPlan s).completion
      = .normal
          [ { type := "wood", amount := 16, priority := 1 },
            { type := "food", amount := 16, priority := 1 },
            { type := "stone", amount := 32, priority := 2 },
            { type := "iron", amount := 12, priority := 3 } ] ∧
    (EnhancedResourceAI.createGatheringPlan s).state = s ∧
    (EnhancedResourceAI.createGatheringPlan s).trace = [] := by
  have hsort : arraySort (fun a b : EnhancedResourceAI.Task => a.priority - b.priority)
      EnhancedResourceAI.declaredTasks
        = [ { type := "wood", amount := 16, priority := 1 },
            { type := "food", amount := 16, priority := 1 },
            { type := "stone", amount := 32, priority := 2 },
            { type := "iron", amount := 12, priority := 3 } ] := by decide
  refine ⟨?_, rfl, rfl⟩
  show Completion.normal (arraySort _ EnhancedResourceAI.declaredTasks) = _
  rw [hsort]

open Improvedbot in
/-- C5: the list returned by `EnhancedResourceAI.createGatheringPlan` is a permutation of the
declared tasks, sorted by ascending priority value, in which the tasks of each priority keep
their declaration order; it is `[wood(1), food(1), stone(2), iron(3)]`, wood before food, and no
resource kind occurs twice. -/
theorem C5_createGatheringPlan_sorted_stable {σ : Type} (s : σ) :
    ∃ plan : List EnhancedResourceAI.Task,
      (EnhancedResourceAI.createGatheringPlan s).completion = .normal plan ∧
      plan.Perm EnhancedResourceAI.declaredTasks ∧
      plan.Pairwise (fun a b => a.priority ≤ b.priority) ∧
      (∀ p : Int, plan.filter (fun a => decide (a.priority = p))
        = EnhancedResourceAI.declaredTasks.filter (fun a => decide (a.priority = p))) ∧
      plan.map (fun a => (a.type, a.priority))
        = [("wood", 1), ("food", 1), ("stone", 2), ("iron", 3)] ∧
      (plan.map (fun a => a.type)).Nodup := by
  refine ⟨arraySort (fun a b : EnhancedResourceAI.Task => a.priority - b.priority)
      EnhancedResourceAI.declaredTasks,
    rfl, arraySort_perm _ _, arraySort_sorted (fun a : EnhancedResourceAI.Task => a.priority) _,
    fun p => arraySort_stable (fun a : EnhancedResourceAI.Task => a.priority) p _,
    by decide, by decide⟩

open Speedrunbot in
/-- C6, refuted as stated: at health 5, below 10, with `useHealthItems` throwing as the call of
a method that the class does not define does, `checkHealth` calls `useHealthItems`, ends with
the exception and never calls `retreatToSafety`: the reaction is not performed. -/
theorem C6_retreat_not_performed_when_useHealthItems_throws :
    ((undefinedHelpersEnv (.fin 5) (.fin 20) (inventoryOf []) [] : Env Unit).health ()).Below 10 ∧
    (SurvivalAI.checkHealth SurvivalAI.new
        (undefinedHelpersEnv (.fin 5) (.fin 20) (inventoryOf []) []) ()).trace
      = [.useHealthItems] ∧
    Event.retreatToSafety ∉
      (SurvivalAI.checkHealth SurvivalAI.new
        (undefinedHelpersEnv (.fin 5) (.fin 20) (inventoryOf []) []) ()).trace ∧
    (SurvivalAI.checkHealth SurvivalAI.new
        (undefinedHelpersEnv (.fin 5) (.fin 20) (inventoryOf []) []) ()).completion
      = .throw { code := none, message := "this.useHealthItems is not a function" } := by
  decide

open Speedrunbot in
/-- C6, amended: `SurvivalAI` starts its reactions on strict threshold comparisons. From every
state and with every behaviour of the bot, `checkHealth` calls `useHealthItems` if and only if
`bot.health` is below 10, and calls `retreatToSafety` if and only if, in addition,
`useHealthItems` has completed normally: when it throws, `checkHealth` ends with that exception
after the one call. `checkFood` calls `autoEat.eat` if and only if `bot.food` is below 14; a
check whose condition does not hold calls nothing and changes nothing, in particular at health
exactly 10 and at food exactly 14; `avoidDangerousBlocks` calls `pathfinder.avoidDanger` if and
only if `findBlocks`, asked for blocks named lava, fire or cactus within distance 2, returns a
non-empty list. -/
theorem C6_survival_checks_start_on_strict_thresholds {σ : Type} (E : Env σ) (s : σ) :
    (Event.useHealthItems ∈ (SurvivalAI.checkHealth SurvivalAI.new E s).trace
      ↔ (E.health s).Below 10) ∧
    (Event.retreatToSafety ∈ (SurvivalAI.checkHealth SurvivalAI.new E s).trace
      ↔ (E.health s).Below 10 ∧ (E.useHealthItems s).1 = .normal ()) ∧
    ((E.health s).Below 10 → (E.useHealthItems s).1 = .normal () →
      (SurvivalAI.checkHealth SurvivalAI.new E s).trace
        = [.useHealthItems, .retreatToSafety]) ∧
    ((E.health s).Below 10 → ∀ err, (E.useHealthItems s).1 = .throw err →
      (SurvivalAI.checkHealth SurvivalAI.new E s).trace = [.useHealthItems] ∧
      (SurvivalAI.checkHealth SurvivalAI.new E s).completion = .throw err) ∧
    (¬ (E.health s).Below 10 →
      (SurvivalAI.checkHealth SurvivalAI.new E s).trace = [] ∧
      (SurvivalAI.checkHealth SurvivalAI.new E s).state = s ∧
      (SurvivalAI.checkHealth SurvivalAI.new E s).completion = .normal ()) ∧
    (E.health s = .fin 10 → (SurvivalAI.checkHealth SurvivalAI.new E s).trace = []) ∧
    (Event.eat ∈ (SurvivalAI.checkFood SurvivalAI.new E s).trace ↔ (E.food s).Below 14) ∧
    ((E.food s).Below 14 → (SurvivalAI.checkFood SurvivalAI.new E s).trace = [.eat]) ∧
    (¬ (E.food s).Below 14 →
      (SurvivalAI.checkFood SurvivalAI.new E s).trace = [] ∧
      (SurvivalAI.checkFood SurvivalAI.new E s).state = s ∧
      (SurvivalAI.checkFood SurvivalAI.new E s).completion = .normal ()) ∧
    (E.food s = .fin 14 → (SurvivalAI.checkFood SurvivalAI.new E s).trace = []) ∧
    (Event.avoidDanger ∈ (SurvivalAI.avoidDangerousBlocks SurvivalAI.new E s).trace
      ↔ E.findBlocks s
          (.byName (fun name => SurvivalAI.new.dangerBlocks.contains name)) 2 none ≠ []) ∧
    (E.findBlocks s (.byName (fun name => SurvivalAI.new.dangerBlocks.contains name)) 2 none = []
      → (SurvivalAI.avoidDangerousBlocks SurvivalAI.new E s).trace = [] ∧
        (SurvivalAI.avoidDangerousBlocks SurvivalAI.new E s).state = s) ∧
    (∀ name : String, SurvivalAI.new.dangerBlocks.contains name = true
      ↔ name = "lava" ∨ name = "fire" ∨ name = "cactus") := by
  have hH : JSNum.lt (E.health s) SurvivalAI.new.healthThreshold = true ↔ (E.health s).Below 10 :=
    JSNum.lt_fin_iff _ _
  have hF : JSNum.lt (E.food s) SurvivalAI.new.foodThreshold = true ↔ (E.food s).Below 14 :=
    JSNum.lt_fin_iff _ _
  have h10 : ¬ (JSNum.fin 10).Below 10 := by simp [JSNum.Below]
  have h14 : ¬ (JSNum.fin 14).Below 14 := by simp [JSNum.Below]
  rw [SurvivalAI.checkHealth_eq, SurvivalAI.checkFood_eq, SurvivalAI.avoidDangerousBlocks_eq]
  simp only [hH, hF]
  refine ⟨?_, ?_, ?_, ?_, ?_, ?_, ?_, ?_, ?_, ?_, ?_, ?_, ?_⟩
  · by_cases h : (E.health s).Below 10
    · simp only [h, if_true, iff_true]
      cases (E.useHealthItems s).1 <;> simp
    · simp [h]
  · by_cases h : (E.health s).Below 10
    · simp only [h, if_true, true_and]
      cases (E.useHealthItems s).1 <;> simp
    · simp [h]
  · intro h hu
    simp [h, hu]
  · intro h err hu
    simp [h, hu]
  · intro h
    simp [h]
  · intro h
    rw [h, if_neg h10]
  · by_cases h : (E.food s).Below 14 <;> simp [h]
  · intro h
    simp [h]
  · intro h
    simp [h]
  · intro h
    rw [h, if_neg h14]
  · by_cases h : E.findBlocks s
        (.byName (fun name => SurvivalAI.new.dangerBlocks.contains name)) 2 none = []
    · rw [if_neg (not_not.2 h)]
      exact ⟨fun hm => absurd hm (List.not_mem_nil _), fun hne => absurd h hne⟩
    · rw [if_pos h]
      exact ⟨fun _ => h, fun _ => List.mem_singleton.2 rfl⟩
  · intro h
    rw [if_neg (not_not.2 h)]
    exact ⟨rfl, rfl⟩
  · intro name
    simp [SurvivalAI.new]

open Speedrunbot in
/-- C6 as amended, at a concrete input: at health 7, when `useHealthItems` throws, `checkHealth`
makes that one call and ends with the exception. -/
theorem C6_survival_checks_start_on_strict_thresholds_witness :
    (SurvivalAI.checkHealth SurvivalAI.new
        (undefinedHelpersEnv (.fin 7) (.fin 20) (inventoryOf []) []) ()).trace
      = [.useHealthItems] ∧
    (SurvivalAI.checkHealth SurvivalAI.new
        (undefinedHelpersEnv (.fin 7) (.fin 20) (inventoryOf []) []) ()).completion
      = .throw { code := none, message := "this.useHealthItems is not a function" } :=
  (C6_survival_checks_start_on_strict_thresholds
      (undefinedHelpersEnv (.fin 7) (.fin 20) (inventoryOf []) []) ()).2.2.2.1
    (show (7 : ℚ) < 10 by norm_num)
    { code := none, message := "this.useHealthItems is not a function" } rfl

open Speedrunbot in
/-- C7, refuted as stated: at health 20, food 5 (below 14) and a lava block nearby, only the
food condition and the hazard condition are active, and one call of `maintainSafety` performs
the food reaction and the hazard reaction as well; no method that the class does not define is
called. -/
theorem C7_maintainSafety_food_and_hazard_both_react :
    ¬ ((undefinedHelpersEnv (.fin 20) (.fin 5) (inventoryOf [])
        [{ name := "lava", position := ⟨1, 0, 0⟩ }] : Env Unit).health ()).Below 10 ∧
    ((undefinedHelpersEnv (.fin 20) (.fin 5) (inventoryOf [])
        [{ name := "lava", position := ⟨1, 0, 0⟩ }] : Env Unit).food ()).Below 14 ∧
    (SurvivalAI.maintainSafety SurvivalAI.new
        (undefinedHelpersEnv (.fin 20) (.fin 5) (inventoryOf [])
          [{ name := "lava", position := ⟨1, 0, 0⟩ }]) ()).trace
      = [.eat, .avoidDanger] := by
  decide

open Speedrunbot in
/-- C7, amended: one call of `maintainSafety` makes the three checks in the order health, food,
hazard, each started only when the one before it has completed normally (a check that throws
ends the call), and a reaction is not held back by another active condition. From every state and with every behaviour of the bot, the
calls made are, in this order and each at most once, `useHealthItems`, `retreatToSafety`,
`autoEat.eat`, `pathfinder.avoidDanger`; `useHealthItems` is called if and only if health is
below 10; when `checkHealth` completes normally, `eat` is called if and only if food is below
14 in the state `checkHealth` left; when `checkFood` also completes normally, `avoidDanger` is
called if and only if the hazard query is non-empty in the state `checkFood` left. So when
health is not below 10, food is below 14, `eat` completes normally and a hazard is near in the
state it left, the call performs the food reaction and then the hazard reaction. -/
theorem C7_maintainSafety_runs_every_check {σ : Type} (E : Env σ) (s : σ) :
    (SurvivalAI.maintainSafety SurvivalAI.new E s).trace.Sublist
      [.useHealthItems, .retreatToSafety, .eat, .avoidDanger] ∧
    (Event.useHealthItems ∈ (SurvivalAI.maintainSafety SurvivalAI.new E s).trace
      ↔ (E.health s).Below 10) ∧
    ((SurvivalAI.checkHealth SurvivalAI.new E s).completion = .normal () →
      (Event.eat ∈ (SurvivalAI.maintainSafety SurvivalAI.new E s).trace
        ↔ (E.food (SurvivalAI.checkHealth SurvivalAI.new E s).state).Below 14)) ∧
    ((SurvivalAI.checkHealth SurvivalAI.new E s).completion = .normal () →
      (SurvivalAI.checkFood SurvivalAI.new E
        (SurvivalAI.checkHealth SurvivalAI.new E s).state).completion = .normal () →
      (Event.avoidDanger ∈ (SurvivalAI.maintainSafety SurvivalAI.new E s).trace
        ↔ E.findBlocks
            (SurvivalAI.checkFood SurvivalAI.new E
              (SurvivalAI.checkHealth SurvivalAI.new E s).state).state
            (.byName (fun name => SurvivalAI.new.dangerBlocks.contains name)) 2 none ≠ [])) ∧
    (¬ (E.health s).Below 10 → (E.food s).Below 14 → (E.eat s).1 = .normal () →
      E.findBlocks (E.eat s).2
        (.byName (fun name => SurvivalAI.new.dangerBlocks.contains name)) 2 none ≠ [] →
      (SurvivalAI.maintainSafety SurvivalAI.new E s).trace = [.eat, .avoidDanger]) ∧
    (∀ err, (SurvivalAI.checkHealth SurvivalAI.new E s).completion = .throw err →
      (SurvivalAI.maintainSafety SurvivalAI.new E s).trace
        = (SurvivalAI.checkHealth SurvivalAI.new E s).trace) ∧
    ((SurvivalAI.checkHealth SurvivalAI.new E s).completion = .normal () →
      ∀ err, (SurvivalAI.checkFood SurvivalAI.new E
        (SurvivalAI.checkHealth SurvivalAI.new E s).state).completion = .throw err →
      (SurvivalAI.maintainSafety SurvivalAI.new E s).trace
        = (SurvivalAI.checkHealth SurvivalAI.new E s).trace ++
          (SurvivalAI.checkFood SurvivalAI.new E
            (SurvivalAI.checkHealth SurvivalAI.new E s).state).trace) := by
  have hstopH : ∀ err, (SurvivalAI.checkHealth SurvivalAI.new E s).completion = .throw err →
      (SurvivalAI.maintainSafety SurvivalAI.new E s).trace
        = (SurvivalAI.checkHealth SurvivalAI.new E s).trace := by
    intro err hc
    rw [SurvivalAI.maintainSafety_trace, hc]
    exact List.append_nil _
  have hstopF : (SurvivalAI.checkHealth SurvivalAI.new E s).completion = .normal () →
      ∀ err, (SurvivalAI.checkFood SurvivalAI.new E
        (SurvivalAI.checkHealth SurvivalAI.new E s).state).completion = .throw err →
      (SurvivalAI.maintainSafety SurvivalAI.new E s).trace
        = (SurvivalAI.checkHealth SurvivalAI.new E s).trace ++
          (SurvivalAI.checkFood SurvivalAI.new E
            (SurvivalAI.checkHealth SurvivalAI.new E s).state).trace := by
    intro hc err hc2
    rw [SurvivalAI.maintainSafety_trace, hc, hc2]
    simp
  have hboth : ¬ (E.health s).Below 10 → (E.food s).Below 14 → (E.eat s).1 = .normal () →
      E.findBlocks (E.eat s).2
        (.byName (fun name => SurvivalAI.new.dangerBlocks.contains name)) 2 none ≠ [] →
      (SurvivalAI.maintainSafety SurvivalAI.new E s).trace = [.eat, .avoidDanger] := by
    intro hH hF heatok hhazard
    have h1 : SurvivalAI.checkHealth SurvivalAI.new E s = ⟨.normal (), s, []⟩ := by
      rw [SurvivalAI.checkHealth_eq, if_neg]
      exact fun h => hH ((JSNum.lt_fin_iff _ _).1 h)
    have h2 : SurvivalAI.checkFood SurvivalAI.new E s = ⟨(E.eat s).1, (E.eat s).2, [.eat]⟩ := by
      rw [SurvivalAI.checkFood_eq, if_pos]
      exact (JSNum.lt_fin_iff _ _).2 hF
    have h3 : SurvivalAI.avoidDangerousBlocks SurvivalAI.new E (E.eat s).2
        = ⟨(E.avoidDanger (E.eat s).2).1, (E.avoidDanger (E.eat s).2).2, [.avoidDanger]⟩ := by
      rw [SurvivalAI.avoidDangerousBlocks_eq, if_pos hhazard]
    rw [SurvivalAI.maintainSafety_trace, h1]
    simp only [h2, heatok, h3]
    rfl
  have hsubH := SurvivalAI.checkHealth_trace_sublist SurvivalAI.new E s
  have hsubF := SurvivalAI.checkFood_trace_sublist SurvivalAI.new E
    (SurvivalAI.checkHealth SurvivalAI.new E s).state
  have hsubA := SurvivalAI.avoidDangerousBlocks_trace_sublist SurvivalAI.new E
    (SurvivalAI.checkFood SurvivalAI.new E
      (SurvivalAI.checkHealth SurvivalAI.new E s).state).state
  have huse := SurvivalAI.useHealthItems_mem_iff E s
  have heat := SurvivalAI.eat_mem_iff E (SurvivalAI.checkHealth SurvivalAI.new E s).state
  have havoid := SurvivalAI.avoidDanger_mem_iff E
    (SurvivalAI.checkFood SurvivalAI.new E
      (SurvivalAI.checkHealth SurvivalAI.new E s).state).state
  have hnotH : ∀ e : Event, e ≠ .useHealthItems → e ≠ .retreatToSafety →
      e ∉ (SurvivalAI.checkHealth SurvivalAI.new E s).trace := by
    intro e h1 h2 hm
    have := hsubH.subset hm
    simp [h1, h2] at this
  have hnotF : ∀ e : Event, e ≠ .eat → e ∉ (SurvivalAI.checkFood SurvivalAI.new E
      (SurvivalAI.checkHealth SurvivalAI.new E s).state).trace := by
    intro e h1 hm
    have := hsubF.subset hm
    simp [h1] at this
  have hnotA : ∀ e : Event, e ≠ .avoidDanger → e ∉ (SurvivalAI.avoidDangerousBlocks
      SurvivalAI.new E (SurvivalAI.checkFood SurvivalAI.new E
        (SurvivalAI.checkHealth SurvivalAI.new E s).state).state).trace := by
    intro e h1 hm
    have := hsubA.subset hm
    simp [h1] at this
  refine ⟨?_, ?_, ?_, ?_, hboth, hstopH, hstopF⟩ <;> rw [SurvivalAI.maintainSafety_trace]
  · have h2 : ([] : List Event).Sublist [.eat, .avoidDanger] := List.nil_sublist _
    cases (SurvivalAI.checkHealth SurvivalAI.new E s).completion with
    | throw e => exact List.Sublist.append hsubH h2
    | normal u =>
      refine List.Sublist.append hsubH ?_
      cases (SurvivalAI.checkFood SurvivalAI.new E
          (SurvivalAI.checkHealth SurvivalAI.new E s).state).completion with
      | throw e => exact List.Sublist.append hsubF (List.nil_sublist [.avoidDanger])
      | normal u2 => exact List.Sublist.append hsubF hsubA
  · rw [List.mem_append, huse]
    refine ⟨fun h => h.elim id fun hm => ?_, Or.inl⟩
    exfalso
    cases hc : (SurvivalAI.checkHealth SurvivalAI.new E s).completion with
    | throw e => rw [hc] at hm; exact List.not_mem_nil _ hm
    | normal u =>
      rw [hc] at hm
      simp only [List.mem_append] at hm
      rcases hm with hm | hm
      · exact hnotF _ (by decide) hm
      · cases hc2 : (SurvivalAI.checkFood SurvivalAI.new E
            (SurvivalAI.checkHealth SurvivalAI.new E s).state).completion with
        | throw e => rw [hc2] at hm; exact List.not_mem_nil _ hm
        | normal u2 => rw [hc2] at hm; exact hnotA _ (by decide) hm
  · intro hc
    rw [hc, ← heat]
    simp only [List.mem_append]
    refine ⟨fun h => ?_, fun h => Or.inr (Or.inl h)⟩
    rcases h with hm | hm | hm
    · exact absurd hm (hnotH _ (by decide) (by decide))
    · exact hm
    · exfalso
      cases hc2 : (SurvivalAI.checkFood SurvivalAI.new E
          (SurvivalAI.checkHealth SurvivalAI.new E s).state).completion with
      | throw e => rw [hc2] at hm; exact List.not_mem_nil _ hm
      | normal u2 => rw [hc2] at hm; exact hnotA _ (by decide) hm
  · intro hc hc2
    rw [hc, hc2, ← havoid]
    simp only [List.mem_append]
    refine ⟨fun h => ?_, fun h => Or.inr (Or.inr h)⟩
    rcases h with hm | hm | hm
    · exact absurd hm (hnotH _ (by decide) (by decide))
    · exact absurd hm (hnotF _ (by decide))
    · exact hm

open Speedrunbot in
/-- C7 as amended, at a concrete input: at health 20 and food 5, with `eat` completing normally
and a cactus nearby, one call of `maintainSafety` calls `eat` and then `avoidDanger`. -/
theorem C7_maintainSafety_runs_every_check_witness :
    (SurvivalAI.maintainSafety SurvivalAI.new
      (undefinedHelpersEnv (.fin 20) (.fin 5) (inventoryOf [])
        [{ name := "cactus", position := ⟨0, 0, 2⟩ }]) ()).trace = [.eat, .avoidDanger] :=
  (C7_maintainSafety_runs_every_check
      (undefinedHelpersEnv (.fin 20) (.fin 5) (inventoryOf [])
        [{ name := "cactus", position := ⟨0, 0, 2⟩ }]) ()).2.2.2.2.1
    (show ¬ ((20 : ℚ) < 10) by norm_num) (show (5 : ℚ) < 14 by norm_num) rfl (by decide)

open BotJs in
/-- C8: `ConnectionManager` never exceeds 5 reconnect attempts. Starting from a fresh manager,
after any sequence of calls of `reconnect` and `handleDisconnect`, with timers firing and the
bot spawning anywhere in between and with every behaviour of what they call, the counter
`reconnectAttempts` is at most 5 and equals the minimum of 5 and the number of calls, and so
does the number of reconnections scheduled; a call made when the counter is 5 schedules nothing
and leaves the counter, and the whole state, unchanged. -/
theorem C8_reconnect_attempts_capped {ω : Type} (E : Env ω) (world : ω) (bot : Nat)
    (inputs : List ConnectionManager.Input) :
    (ConnectionManager.run E inputs (ConnectionManager.new world bot)).1.reconnectAttempts ≤ 5 ∧
    (ConnectionManager.run E inputs (ConnectionManager.new world bot)).1.reconnectAttempts
      = min (ConnectionManager.reconnectCalls inputs) 5 ∧
    ConnectionManager.scheduled
        (ConnectionManager.run E inputs (ConnectionManager.new world bot)).2
      = min (ConnectionManager.reconnectCalls inputs) 5 ∧
    (∀ st : ConnectionManager.State ω, st.reconnectAttempts = 5 →
      ConnectionManager.reconnect st = ⟨.normal (), st, []⟩ ∧
      (ConnectionManager.handleDisconnect st).state = st ∧
      ConnectionManager.scheduled (ConnectionManager.handleDisconnect st).trace = 0) := by
  obtain ⟨h1, h2⟩ := ConnectionManager.run_spec E inputs (ConnectionManager.new world bot)
    (Nat.zero_le 5)
  have h0 : (ConnectionManager.new world bot).reconnectAttempts = 0 := rfl
  simp only [h0, Nat.zero_add] at h1 h2
  refine ⟨?_, h1, h2, ?_⟩
  · rw [h1]
    exact Nat.min_le_right _ _
  · intro st hst
    have hnot : ¬ st.reconnectAttempts < 5 := by omega
    have hr : ConnectionManager.reconnect st = ⟨.normal (), st, []⟩ := by
      rw [ConnectionManager.reconnect_eq, if_neg hnot]
    refine ⟨hr, ?_, ?_⟩
    · rw [ConnectionManager.handleDisconnect_eq, hr]
    · rw [ConnectionManager.handleDisconnect_eq, hr]
      simp [ConnectionManager.scheduled]

open BotJs in
/-- C8, at a concrete input: a manager whose counter is 5 answers `reconnect()` by doing
nothing. -/
theorem C8_reconnect_attempts_capped_witness :
    ConnectionManager.reconnect
        ({ world := (), bot := 0, reconnectAttempts := 5, pendingTimers := 0 } :
          ConnectionManager.State Unit)
      = ⟨.normal (), { world := (), bot := 0, reconnectAttempts := 5, pendingTimers := 0 }, []⟩ :=
  ((C8_reconnect_attempts_capped ConnectionManager.quietEnv () 0 []).2.2.2
    { world := (), bot := 0, reconnectAttempts := 5, pendingTimers := 0 } rfl).1

open BotJs in
/-- C9, refuted as stated: after 3 failed connections (each followed by its reconnection
timer), one spawn and 3 further failed connections, the counter is 5, not 3, and the next call
of `reconnect` schedules nothing. -/
theorem C9_spawn_does_not_reset_counter :
    (ConnectionManager.run ConnectionManager.quietEnv
        [.handleDisconnect, .timer, .handleDisconnect, .timer, .handleDisconnect, .timer,
          .spawn,
          .handleDisconnect, .timer, .handleDisconnect, .timer, .handleDisconnect, .timer]
        (ConnectionManager.new () 0)).1.reconnectAttempts = 5 ∧
    (ConnectionManager.run ConnectionManager.quietEnv
        [.handleDisconnect, .timer, .handleDisconnect, .timer, .handleDisconnect, .timer,
          .spawn,
          .handleDisconnect, .timer, .handleDisconnect, .timer, .handleDisconnect, .timer]
        (ConnectionManager.new () 0)).1.reconnectAttempts ≠ 3 ∧
    ConnectionManager.scheduled
      (ConnectionManager.reconnect
        (ConnectionManager.run ConnectionManager.quietEnv
          [.handleDisconnect, .timer, .handleDisconnect, .timer, .handleDisconnect, .timer,
            .spawn,
            .handleDisconnect, .timer, .handleDisconnect, .timer, .handleDisconnect, .timer]
          (ConnectionManager.new () 0)).1).trace = 0 := by
  decide

open BotJs in
/-- C9, amended: a spawn does not reset the reconnect attempt counter. For every N and M and
every behaviour of what the code calls, after N failed connections, then one spawn, then M
further failed connections, `reconnectAttempts` equals the minimum of N + M and 5; more
generally, a spawn anywhere in a sequence of turns leaves the counter at the minimum of 5 and
the number of calls of `reconnect` before and after it. -/
theorem C9_counter_accumulates_across_spawn {ω : Type} (E : Env ω) (world : ω) (bot : Nat) :
    (∀ N M : Nat,
      (ConnectionManager.run E
        (List.replicate N .handleDisconnect ++ .spawn :: List.replicate M .handleDisconnect)
        (ConnectionManager.new world bot)).1.reconnectAttempts = min (N + M) 5) ∧
    (∀ before after : List ConnectionManager.Input,
      (ConnectionManager.run E (before ++ .spawn :: after)
        (ConnectionManager.new world bot)).1.reconnectAttempts
        = min (ConnectionManager.reconnectCalls before
            + ConnectionManager.reconnectCalls after) 5) := by
  have hgen : ∀ before after : List ConnectionManager.Input,
      (ConnectionManager.run E (before ++ .spawn :: after)
        (ConnectionManager.new world bot)).1.reconnectAttempts
        = min (ConnectionManager.reconnectCalls before
            + ConnectionManager.reconnectCalls after) 5 := by
    intro before after
    have h := (ConnectionManager.run_spec E (before ++ .spawn :: after)
      (ConnectionManager.new world bot) (Nat.zero_le 5)).1
    have h0 : (ConnectionManager.new world bot).reconnectAttempts = 0 := rfl
    rw [h0, Nat.zero_add, ConnectionManager.reconnectCalls_append,
      ConnectionManager.reconnectCalls_cons] at h
    have hs : ConnectionManager.reconnectCalls [ConnectionManager.Input.spawn] = 0 := by decide
    rw [hs, Nat.zero_add] at h
    exact h
  refine ⟨fun N M => ?_, hgen⟩
  have h := hgen (List.replicate N .handleDisconnect) (List.replicate M .handleDisconnect)
  rw [ConnectionManager.reconnectCalls_replicate_handleDisconnect,
    ConnectionManager.reconnectCalls_replicate_handleDisconnect] at h
  exact h

/-- C10: absent failures the phases run in plan order, each exactly once. In
`ImprovedSpeedrunBot.executeSpeedrunPhases` the calls made are always the first so many of
`gatherInitialResources`, `findVillage`, `prepareNether`, `navigateNether`, `findStronghold`,
`defeatDragon`, in this order, each made with `state.currentPhase` already set to its own
identifier, a call being made only after the one before it has completed; when no phase fails
they are all six, the method completes normally and `state.currentPhase` is left at
`defeatDragon`. In `AISpeedrunBot.startSpeedrun` of `src/speedrunbot.js` the phase methods
entered are always the first so many of the seven in the written order, and all seven when no
helper fails; `startSpeedrun` itself always completes normally. -/
theorem C10_phases_visited_in_plan_order :
    (∀ (ω : Type) (E : Improvedbot.Env ω) (st : Improvedbot.ImprovedSpeedrunBot.State ω),
      (Improvedbot.ImprovedSpeedrunBot.executeSpeedrunPhases E st).trace <+:
        [.invoke "gatherInitialResources" (some "gatherInitialResources"),
          .invoke "findVillage" (some "findVillage"),
          .invoke "prepareNether" (some "prepareNether"),
          .invoke "navigateNether" (some "navigateNether"),
          .invoke "findStronghold" (some "findStronghold"),
          .invoke "defeatDragon" (some "defeatDragon")] ∧
      ((∀ phase w, (E.method phase w).1 = .normal ()) →
        (Improvedbot.ImprovedSpeedrunBot.executeSpeedrunPhases E st).trace =
          [.invoke "gatherInitialResources" (some "gatherInitialResources"),
            .invoke "findVillage" (some "findVillage"),
            .invoke "prepareNether" (some "prepareNether"),
            .invoke "navigateNether" (some "navigateNether"),
            .invoke "findStronghold" (some "findStronghold"),
            .invoke "defeatDragon" (some "defeatDragon")] ∧
        (Improvedbot.ImprovedSpeedrunBot.executeSpeedrunPhases E st).completion = .normal () ∧
        (Improvedbot.ImprovedSpeedrunBot.executeSpeedrunPhases E st).state.state.currentPhase
          = some "defeatDragon")) ∧
    (∀ (ω : Type) (E : Speedrunbot.Env (Speedrunbot.BotState ω)) (s : Speedrunbot.BotState ω),
      Speedrunbot.AISpeedrunBot.phaseEntries (Speedrunbot.AISpeedrunBot.startSpeedrun E s).trace
        <+: ["gatherInitialResources", "findVillageAndLoot", "prepareForNether",
          "enterAndNavigateNether", "findStronghold", "prepareForDragon", "fightDragon"] ∧
      (Speedrunbot.AISpeedrunBot.startSpeedrun E s).completion = .normal () ∧
      ((∀ name s, (E.helper name s).1 = .normal ()) →
        (∀ kind s, ∃ found, (E.findNearestStructure kind s).1 = .normal found) →
        (∀ strategy target s, (E.executeStrategy strategy target s).1 = .normal ()) →
        Speedrunbot.AISpeedrunBot.phaseEntries
            (Speedrunbot.AISpeedrunBot.startSpeedrun E s).trace
          = ["gatherInitialResources", "findVillageAndLoot", "prepareForNether",
            "enterAndNavigateNether", "findStronghold", "prepareForDragon", "fightDragon"])) := by
  refine ⟨fun ω E st => ⟨?_, fun hok => ?_⟩, fun ω E s => ⟨?_, ?_, fun hhelper hfind hexec => ?_⟩⟩
  · exact Improvedbot.ImprovedSpeedrunBot.phases_loop_prefix E
      Improvedbot.ImprovedSpeedrunBot.phases st
  · exact Improvedbot.ImprovedSpeedrunBot.phases_loop_exact E hok
      Improvedbot.ImprovedSpeedrunBot.phases st
  · rw [(Speedrunbot.AISpeedrunBot.startSpeedrun_spec E s).1]
    exact Speedrunbot.AISpeedrunBot.tryBlock_entries_prefix E _
  · exact (Speedrunbot.AISpeedrunBot.startSpeedrun_spec E s).2
  · rw [(Speedrunbot.AISpeedrunBot.startSpeedrun_spec E s).1]
    exact (Speedrunbot.AISpeedrunBot.tryBlock_entries_exact E hhelper hfind hexec _).1

/-- C10, at a concrete input: with phases that complete normally, `executeSpeedrunPhases` of a
fresh `ImprovedSpeedrunBot` leaves `state.currentPhase` at `defeatDragon`, and `startSpeedrun`
of `src/speedrunbot.js`, in a world where every helper completes normally, enters its seven
phases in the written order. -/
theorem C10_phases_visited_in_plan_order_witness :
    (Improvedbot.ImprovedSpeedrunBot.executeSpeedrunPhases
        Improvedbot.ImprovedSpeedrunBot.quietEnv
        (Improvedbot.ImprovedSpeedrunBot.new ())).state.state.currentPhase
      = some "defeatDragon" ∧
    Speedrunbot.AISpeedrunBot.phaseEntries
        (Speedrunbot.AISpeedrunBot.startSpeedrun
          (Speedrunbot.fixedEnv (.fin 20) (.fin 20) (inventoryOf []) [])
          ({ world := (), combat := Speedrunbot.CombatAI.new, startTime := none } :
            Speedrunbot.BotState Unit)).trace
      = ["gatherInitialResources", "findVillageAndLoot", "prepareForNether",
        "enterAndNavigateNether", "findStronghold", "prepareForDragon", "fightDragon"] :=
  ⟨((C10_phases_visited_in_plan_order.1 Unit Improvedbot.ImprovedSpeedrunBot.quietEnv
      (Improvedbot.ImprovedSpeedrunBot.new ())).2 (fun _ _ => rfl)).2.2,
    (C10_phases_visited_in_plan_order.2 Unit
      (Speedrunbot.fixedEnv (.fin 20) (.fin 20) (inventoryOf []) [])
      { world := (), combat := Speedrunbot.CombatAI.new, startTime := none }).2.2
      (fun _ _ => rfl) (fun _ _ => ⟨none, rfl⟩) (fun _ _ _ => rfl)⟩

open Improvedbot in
/-- C11: when the action of a phase fails, the run stops at that phase. Let the phases of
`ImprovedSpeedrunBot.executeSpeedrunPhases` be `pre`, then `p`, then `post`, let every phase of
`pre` complete normally and let `p` reject with `error`. Then `executeSpeedrunPhases` invokes
exactly the phases of `pre` and then `p`, ends with the exception `error` and leaves
`state.currentPhase` at `p`; `startSpeedrun` invokes the same phases and none of `post`, its
catch block runs from the state in which `state.currentPhase` is `p` (it calls
`ErrorHandler.handle` and then `handleSpeedrunFailure`) and leaves it so, and `startSpeedrun`
completes the way `handleSpeedrunFailure` does: the failure of the phase does not leave the
`try` statement. -/
theorem C11_failing_phase_stops_run {ω : Type} (E : Env ω)
    (st : ImprovedSpeedrunBot.State ω) (pre : List String) (p : String) (post : List String)
    (error : JSError) (hsplit : ImprovedSpeedrunBot.phases = pre ++ p :: post)
    (hpre : ∀ q ∈ pre, ∀ w, (E.method q w).1 = .normal ())
    (hp : ∀ w, (E.method p w).1 = .throw error) :
    ImprovedSpeedrunBot.invoked (ImprovedSpeedrunBot.executeSpeedrunPhases E st).trace
      = pre ++ [p] ∧
    (ImprovedSpeedrunBot.executeSpeedrunPhases E st).completion = .throw error ∧
    (ImprovedSpeedrunBot.executeSpeedrunPhases E st).state.state.currentPhase = some p ∧
    ImprovedSpeedrunBot.invoked (ImprovedSpeedrunBot.startSpeedrun E st).trace = pre ++ [p] ∧
    (∀ q ∈ post, ∀ c, Event.invoke q c ∉ (ImprovedSpeedrunBot.startSpeedrun E st).trace) ∧
    (ImprovedSpeedrunBot.executeSpeedrunPhases E
      (ImprovedSpeedrunBot.started E st)).state.state.currentPhase = some p ∧
    (ImprovedSpeedrunBot.startSpeedrun E st).state.state.currentPhase = some p ∧
    Event.helper "handleSpeedrunFailure" ∈ (ImprovedSpeedrunBot.startSpeedrun E st).trace ∧
    (ImprovedSpeedrunBot.startSpeedrun E st).completion
      = (E.handleSpeedrunFailure
          (ImprovedSpeedrunBot.executeSpeedrunPhases E
            (ImprovedSpeedrunBot.started E st)).state.world).1 := by
  have hloop : ∀ st0 : ImprovedSpeedrunBot.State ω,
      (ImprovedSpeedrunBot.executeSpeedrunPhases E st0).trace
        = (pre ++ [p]).map (fun q => Event.invoke q (some q)) ∧
      (ImprovedSpeedrunBot.executeSpeedrunPhases E st0).completion = .throw error ∧
      (ImprovedSpeedrunBot.executeSpeedrunPhases E st0).state.state.currentPhase = some p := by
    intro st0
    have h := ImprovedSpeedrunBot.phases_loop_failure E error pre p post hpre hp st0
    rw [← hsplit] at h
    exact h
  obtain ⟨h1, h2, h3⟩ := hloop st
  obtain ⟨k1, k2, k3⟩ := hloop (ImprovedSpeedrunBot.started E st)
  have hinv : ImprovedSpeedrunBot.invoked (ImprovedSpeedrunBot.startSpeedrun E st).trace
      = pre ++ [p] := by
    rw [ImprovedSpeedrunBot.startSpeedrun_of_throw E error st k2]
    show ImprovedSpeedrunBot.invoked (_ ++ _) = _
    rw [ImprovedSpeedrunBot.invoked_append, k1, ImprovedSpeedrunBot.invoked_map_invoke]
    simp [ImprovedSpeedrunBot.invoked]
  have hnodup : (pre ++ p :: post).Nodup := by
    rw [← hsplit]
    decide
  refine ⟨?_, h2, h3, hinv, ?_, k3, ?_, ?_, ?_⟩
  · rw [h1, ImprovedSpeedrunBot.invoked_map_invoke]
  · intro q hq c hmem
    have hin := ImprovedSpeedrunBot.mem_invoked_of_mem hmem
    rw [hinv] at hin
    have hd := List.nodup_append.1 hnodup
    rcases List.mem_append.1 hin with hin | hin
    · exact hd.2.2 hin (List.mem_cons_of_mem _ hq)
    · rw [List.mem_singleton] at hin
      subst hin
      exact (List.nodup_cons.1 hd.2.1).1 hq
  · rw [ImprovedSpeedrunBot.startSpeedrun_of_throw E error st k2]
    exact k3
  · rw [ImprovedSpeedrunBot.startSpeedrun_of_throw E error st k2]
    simp
  · rw [ImprovedSpeedrunBot.startSpeedrun_of_throw E error st k2]

open Improvedbot in
/-- C11, at a concrete input: when `prepareNether` rejects and the two phases before it
complete normally, `startSpeedrun` invokes `gatherInitialResources`, `findVillage` and
`prepareNether` and nothing after. -/
theorem C11_failing_phase_stops_run_witness :
    ImprovedSpeedrunBot.invoked
        (ImprovedSpeedrunBot.startSpeedrun
          (ImprovedSpeedrunBot.failingEnv "prepareNether" { code := none, message := "failed" })
          (ImprovedSpeedrunBot.new ())).trace
      = ["gatherInitialResources", "findVillage", "prepareNether"] :=
  (C11_failing_phase_stops_run
    (ImprovedSpeedrunBot.failingEnv "prepareNether" { code := none, message := "failed" })
    (ImprovedSpeedrunBot.new ()) ["gatherInitialResources", "findVillage"] "prepareNether"
    ["navigateNether", "findStronghold", "defeatDragon"] { code := none, message := "failed" }
    rfl (by decide) (fun _ => rfl)).2.2.2.1

open Improvedbot in
/-- C13: `ErrorHandler.handle` returns whether the error is recoverable, and that depends on
the code of the error only. For every error, every context and every state, `handle` completes
normally with the value `isRecoverable(error)` and changes nothing; `isRecoverable` is false if
and only if the code is `'ECONNREFUSED'`, `'AUTHFAIL'` or `'CRITICAL_ERROR'`, and true for
every other code and for an error that has no code. -/
theorem C13_handle_returns_recoverability {σ : Type} (toISOString : σ → String)
    (error : JSError) (context : String) (s : σ) :
    (ErrorHandler.handle toISOString error context s).completion
      = .normal (ErrorHandler.isRecoverable error) ∧
    (ErrorHandler.handle toISOString error context s).state = s ∧
    (ErrorHandler.isRecoverable error = false ↔
      error.code = some "ECONNREFUSED" ∨ error.code = some "AUTHFAIL" ∨
        error.code = some "CRITICAL_ERROR") ∧
    (ErrorHandler.isRecoverable error = true ↔
      error.code ≠ some "ECONNREFUSED" ∧ error.code ≠ some "AUTHFAIL" ∧
        error.code ≠ some "CRITICAL_ERROR") ∧
    (∀ message : String,
      ErrorHandler.isRecoverable { code := none, message := message } = true) ∧
    (∀ other : JSError, other.code = error.code →
      ErrorHandler.isRecoverable other = ErrorHandler.isRecoverable error) := by
  have hiff : ErrorHandler.isRecoverable error = false ↔
      error.code = some "ECONNREFUSED" ∨ error.code = some "AUTHFAIL" ∨
        error.code = some "CRITICAL_ERROR" := by
    unfold ErrorHandler.isRecoverable
    cases hcode : error.code with
    | none => simp
    | some code =>
      simp [ErrorHandler.unrecoverableErrors]
      tauto
  refine ⟨?_, ?_, hiff, ?_, fun _ => rfl, ?_⟩
  · simp [ErrorHandler.handle, ErrorHandler.logError, Eff.bind_eq, Eff.pure_eq, Eff.andThen,
      Eff.read, Eff.emit, Eff.ret]
  · simp [ErrorHandler.handle, ErrorHandler.logError, Eff.bind_eq, Eff.pure_eq, Eff.andThen,
      Eff.read, Eff.emit, Eff.ret]
  · rw [← Bool.not_eq_false, hiff]
    tauto
  · intro other h
    unfold ErrorHandler.isRecoverable
    rw [h]

open Improvedbot in
/-- C13, at a concrete input: two errors with the code `'AUTHFAIL'` and different messages are
classified alike. -/
theorem C13_handle_returns_recoverability_witness :
    ErrorHandler.isRecoverable { code := some "AUTHFAIL", message := "first" }
      = ErrorHandler.isRecoverable { code := some "AUTHFAIL", message := "second" } :=
  (C13_handle_returns_recoverability (fun _ : Unit => "") 
    { code := some "AUTHFAIL", message := "second" } "" ()).2.2.2.2.2
    { code := some "AUTHFAIL", message := "first" } rfl

open Speedrunbot in
/-- C12, refuted as stated: in a world where health is 5 and food is 5 in every state, so that
every call of `maintainSafety` calls `useHealthItems`, `startSpeedrun` enters its seven phases
and its trace holds no call of `useHealthItems`: no phase is preceded by a poll. Likewise the
trace of `executeSpeedrunPhases` of `src/Improvedbot.js` is the six phase calls and nothing in
between. -/
theorem C12_phases_not_preceded_by_poll :
    Event.useHealthItems ∈
      (SurvivalAI.maintainSafety SurvivalAI.new
        (fixedEnv (.fin 5) (.fin 5) (inventoryOf []) [])
        ({ world := (), combat := CombatAI.new, startTime := none } : BotState Unit)).trace ∧
    AISpeedrunBot.phaseEntries
        (AISpeedrunBot.startSpeedrun (fixedEnv (.fin 5) (.fin 5) (inventoryOf []) [])
          ({ world := (), combat := CombatAI.new, startTime := none } : BotState Unit)).trace
      = ["gatherInitialResources", "findVillageAndLoot", "prepareForNether",
        "enterAndNavigateNether", "findStronghold", "prepareForDragon", "fightDragon"] ∧
    Event.useHealthItems ∉
      (AISpeedrunBot.startSpeedrun (fixedEnv (.fin 5) (.fin 5) (inventoryOf []) [])
        ({ world := (), combat := CombatAI.new, startTime := none } : BotState Unit)).trace ∧
    (Improvedbot.ImprovedSpeedrunBot.executeSpeedrunPhases
        Improvedbot.ImprovedSpeedrunBot.quietEnv
        (Improvedbot.ImprovedSpeedrunBot.new ())).trace
      = [.invoke "gatherInitialResources" (some "gatherInitialResources"),
          .invoke "findVillage" (some "findVillage"),
          .invoke "prepareNether" (some "prepareNether"),
          .invoke "navigateNether" (some "navigateNether"),
          .invoke "findStronghold" (some "findStronghold"),
          .invoke "defeatDragon" (some "defeatDragon")] := by
  decide

/-- C12, amended: the scheduler does not poll the survival monitor. From every state and with
every behaviour of the bot, the trace of `AISpeedrunBot.startSpeedrun` holds none of the calls
that the checks of `SurvivalAI.maintainSafety` make (`useHealthItems`, `retreatToSafety`,
`autoEat.eat`, `pathfinder.avoidDanger`), whatever health and food are, and the trace of
`ImprovedSpeedrunBot.executeSpeedrunPhases` holds the calls of the phases and nothing else. -/
theorem C12_no_survival_poll_in_speedrun :
    (∀ (ω : Type) (E : Speedrunbot.Env (Speedrunbot.BotState ω)) (s : Speedrunbot.BotState ω),
      (Speedrunbot.AISpeedrunBot.startSpeedrun E s).trace.filter Event.isSurvivalReaction
        = []) ∧
    (∀ (ω : Type) (E : Improvedbot.Env ω) (st : Improvedbot.ImprovedSpeedrunBot.State ω),
      (Improvedbot.ImprovedSpeedrunBot.executeSpeedrunPhases E st).trace.filter
        (fun e => !e.isInvoke) = []) := by
  refine ⟨fun ω E s => ?_, fun ω E st => ?_⟩
  · rw [List.filter_eq_nil_iff]
    intro e he
    rw [Speedrunbot.AISpeedrunBot.startSpeedrun_noSurvival E s e he]
    exact Bool.false_ne_true
  · rw [List.filter_eq_nil_iff]
    intro e he
    have hpre := Improvedbot.ImprovedSpeedrunBot.phases_loop_prefix E
      Improvedbot.ImprovedSpeedrunBot.phases st
    have hmem := hpre.subset he
    rw [List.mem_map] at hmem
    obtain ⟨q, _, rfl⟩ := hmem
    simp [Event.isInvoke]

open Speedrunbot in
/-- C14: the failure of one block never aborts the other acquisitions. With every behaviour of
the bot, `ResourceAI.mineBlock` completes normally whether `equipForBlock` and `dig` reject or
not; when `minecraft-data` knows the block, `collectResource` enters `mineBlock` for every
position that `findBlocks` returned, in order, and completes normally; and `gatherResources`
completes normally with a call of `collectResource` for each deficient entry of
`requiredItems`, in order, whatever happened to the blocks of the entries before it. -/
theorem C14_mining_failure_does_not_abort {σ : Type} (E : Env σ) (s : σ) :
    (∀ position : Vec3,
      (ResourceAI.mineBlock E position s).completion = .normal () ∧
      ResourceAI.mineCalls (ResourceAI.mineBlock E position s).trace = [position]) ∧
    (∀ (itemName : String) (amount blockID : Nat),
      E.blocksByName itemName = some blockID → blockID ≠ 0 →
      (ResourceAI.collectResource E itemName amount s).completion = .normal () ∧
      ResourceAI.mineCalls (ResourceAI.collectResource E itemName amount s).trace
        = E.findBlocks s (.id blockID) 32 (some amount)) ∧
    (ResourceAI.gatherResources ResourceAI.new E s).completion = .normal () ∧
    ResourceAI.collectCalls (ResourceAI.gatherResources ResourceAI.new E s).trace
      = ResourceAI.expectedAcquisitions ResourceAI.new.requiredItems
          ((ResourceAI.countReads
            (ResourceAI.gatherResources ResourceAI.new E s).trace).map Prod.snd) := by
  obtain ⟨hc, -, hcalls, -⟩ :=
    ResourceAI.gatherResources_loop E ResourceAI.new.requiredItems s
  refine ⟨fun position => ⟨(ResourceAI.mineBlock_spec E position s).1,
      ResourceAI.mineBlock_mineCalls E position s⟩,
    fun itemName amount blockID hid hne =>
      ⟨(ResourceAI.collectResource_spec E itemName amount s).1,
        ResourceAI.collectResource_mineCalls E itemName amount s blockID hid hne⟩,
    hc, hcalls⟩

open Speedrunbot in
/-- C14, at a concrete input: in a world where equipping a tool always rejects and the
inventory is empty, `collectResource` enters `mineBlock` for both blocks found, and
`gatherResources` calls `collectResource` for all four items and enters `mineBlock` eight
times. -/
theorem C14_mining_failure_does_not_abort_witness :
    ResourceAI.mineCalls
        (ResourceAI.collectResource (brokenToolEnv : Env Unit) "wood" 16 ()).trace
      = [⟨0, 64, 0⟩, ⟨1, 64, 0⟩] ∧
    ResourceAI.collectCalls
        (ResourceAI.gatherResources ResourceAI.new (brokenToolEnv : Env Unit) ()).trace
      = [("wood", 16), ("cobblestone", 32), ("iron_ingot", 12), ("food", 16)] ∧
    (ResourceAI.mineCalls
        (ResourceAI.gatherResources ResourceAI.new (brokenToolEnv : Env Unit) ()).trace).length
      = 8 :=
  ⟨((C14_mining_failure_does_not_abort (brokenToolEnv : Env Unit) ()).2.1
      "wood" 16 1 rfl (by decide)).2,
    by decide, by decide⟩

open Speedrunbot in
/-- C15: every combat loop of `CombatAI` is bounded by the test `target.health > 0 &&
this.isInCombat`. For `hostileMobStrategy`, `playerCombatStrategy` and `dragonCombatStrategy`,
with every behaviour of the bot: a turn of the loop starts only with a health greater than 0
and `isInCombat` true; no turn is made when the test fails on entry (for the dragon strategy:
in the state `new BedPlacer` left, or when that call throws); a loop that returns normally
leaves a state in which the test fails; and when health is a natural number that every turn
lowers by at least 1, the loop ends, given enough fuel, after at most as many turns as the
health at the start of the loop. -/
theorem C15_combat_loops_bounded {ω : Type} (E : Env (BotState ω)) (target : Entity) :
    ((∀ (fuel : Nat) (s : BotState ω) (r : Result (BotState ω) Unit),
        CombatAI.hostileMobStrategy E target fuel s = some r →
        ∀ h c, Event.cycle h c ∈ r.trace → h.Positive ∧ c = true) ∧
      (∀ (fuel : Nat) (s : BotState ω),
        (¬ (E.targetHealth s target).Positive ∨ s.combat.isInCombat = false) →
        CombatAI.hostileMobStrategy E target (fuel + 1) s = some ⟨.normal (), s, []⟩) ∧
      (∀ (fuel : Nat) (s : BotState ω) (r : Result (BotState ω) Unit),
        CombatAI.hostileMobStrategy E target fuel s = some r → r.completion = .normal () →
        ¬ ((E.targetHealth r.state target).Positive ∧ r.state.combat.isInCombat = true)) ∧
      (∀ hp : BotState ω → Nat, (∀ s, E.targetHealth s target = .fin (hp s)) →
        (∀ s, (E.targetHealth s target).Positive ∧ s.combat.isInCombat = true →
          hp (CombatAI.hostileMobCycle E target s).state + 1 ≤ hp s) →
        ∀ (fuel : Nat) (s : BotState ω), hp s < fuel →
          ∃ r, CombatAI.hostileMobStrategy E target fuel s = some r ∧ cycles r.trace ≤ hp s)) ∧
    ((∀ (fuel : Nat) (s : BotState ω) (r : Result (BotState ω) Unit),
        CombatAI.playerCombatStrategy E target fuel s = some r →
        ∀ h c, Event.cycle h c ∈ r.trace → h.Positive ∧ c = true) ∧
      (∀ (fuel : Nat) (s : BotState ω),
        (¬ (E.targetHealth s target).Positive ∨ s.combat.isInCombat = false) →
        CombatAI.playerCombatStrategy E target (fuel + 1) s = some ⟨.normal (), s, []⟩) ∧
      (∀ (fuel : Nat) (s : BotState ω) (r : Result (BotState ω) Unit),
        CombatAI.playerCombatStrategy E target fuel s = some r → r.completion = .normal () →
        ¬ ((E.targetHealth r.state target).Positive ∧ r.state.combat.isInCombat = true)) ∧
      (∀ hp : BotState ω → Nat, (∀ s, E.targetHealth s target = .fin (hp s)) →
        (∀ s, (E.targetHealth s target).Positive ∧ s.combat.isInCombat = true →
          hp (CombatAI.playerCombatCycle E target s).state + 1 ≤ hp s) →
        ∀ (fuel : Nat) (s : BotState ω), hp s < fuel →
          ∃ r, CombatAI.playerCombatStrategy E target fuel s = some r ∧
            cycles r.trace ≤ hp s)) ∧
    ((∀ (fuel : Nat) (s : BotState ω) (r : Result (BotState ω) Unit),
        CombatAI.dragonCombatStrategy E target fuel s = some r →
        ∀ h c, Event.cycle h c ∈ r.trace → h.Positive ∧ c = true) ∧
      (∀ (fuel : Nat) (s : BotState ω), (E.newBedPlacer s).1 = .normal () →
        (¬ (E.targetHealth (E.newBedPlacer s).2 target).Positive ∨
          (E.newBedPlacer s).2.combat.isInCombat = false) →
        CombatAI.dragonCombatStrategy E target (fuel + 1) s
          = some ⟨.normal (), (E.newBedPlacer s).2, [.newBedPlacer]⟩) ∧
      (∀ (fuel : Nat) (s : BotState ω) (err : JSError), (E.newBedPlacer s).1 = .throw err →
        CombatAI.dragonCombatStrategy E target fuel s
          = some ⟨.throw err, (E.newBedPlacer s).2, [.newBedPlacer]⟩) ∧
      (∀ (fuel : Nat) (s : BotState ω) (r : Result (BotState ω) Unit),
        CombatAI.dragonCombatStrategy E target fuel s = some r → r.completion = .normal () →
        ¬ ((E.targetHealth r.state target).Positive ∧ r.state.combat.isInCombat = true)) ∧
      (∀ hp : BotState ω → Nat, (∀ s, E.targetHealth s target = .fin (hp s)) →
        (∀ s, (E.targetHealth s target).Positive ∧ s.combat.isInCombat = true →
          hp (CombatAI.dragonCombatCycle E target s).state + 1 ≤ hp s) →
        ∀ (fuel : Nat) (s : BotState ω), hp (E.newBedPlacer s).2 < fuel →
          ∃ r, CombatAI.dragonCombatStrategy E target fuel s = some r ∧
            cycles r.trace ≤ hp (E.newBedPlacer s).2)) := by
  have hmob := CombatAI.combatLoop_props E target (.attack target) (.helper "maintainDistance")
    (E.attack target) (E.helper "maintainDistance") rfl rfl
  have hplayer := CombatAI.combatLoop_props E target (.attack target)
    (.helper "performCriticalHits") (E.attack target) (E.helper "performCriticalHits") rfl rfl
  have hdragon := CombatAI.combatLoop_props E target (.placeBedNearDragon target)
    (.helper "avoidDragonBreath") (E.placeBedNearDragon target) (E.helper "avoidDragonBreath")
    rfl rfl
  refine ⟨⟨hmob.1, hmob.2.1, hmob.2.2.1, fun hp _ hdec => hmob.2.2.2 hp hdec⟩,
    ⟨hplayer.1, hplayer.2.1, hplayer.2.2.1, fun hp _ hdec => hplayer.2.2.2 hp hdec⟩,
    ?_, ?_, ?_, ?_, ?_⟩
  · intro fuel s r hr h c hmem
    rcases CombatAI.callThenLoop_some _ _ _ s r hr with ⟨htr, -⟩ | ⟨r', hr', -, -, htr⟩
    · rw [htr] at hmem
      simp at hmem
    · rw [htr] at hmem
      rcases List.mem_cons.1 hmem with heq | hmem
      · cases heq
      · exact hdragon.1 fuel _ r' hr' h c hmem
  · intro fuel s hnormal hcond
    have hloop := hdragon.2.1 fuel (E.newBedPlacer s).2 hcond
    unfold CombatAI.dragonCombatStrategy callThenLoop
    rw [hnormal]
    simp only
    unfold CombatAI.dragonCombatCycle
    rw [hloop]
    rfl
  · intro fuel s err hthrow
    unfold CombatAI.dragonCombatStrategy callThenLoop
    rw [hthrow]
  · intro fuel s r hr hnormal
    rcases CombatAI.callThenLoop_some _ _ _ s r hr with ⟨-, err, herr⟩ | ⟨r', hr', hc, hs, -⟩
    · rw [herr] at hnormal
      simp at hnormal
    · rw [hs]
      exact hdragon.2.2.1 fuel _ r' hr' (hc ▸ hnormal)
  · intro hp _ hdec fuel s hlt
    obtain ⟨r', hr', hle⟩ := hdragon.2.2.2 hp hdec fuel (E.newBedPlacer s).2 hlt
    unfold CombatAI.dragonCombatStrategy callThenLoop
    cases hc : (E.newBedPlacer s).1 with
    | throw err =>
      refine ⟨_, rfl, ?_⟩
      simp [cycles, Event.isCycle]
    | normal u =>
      unfold CombatAI.dragonCombatCycle
      refine ⟨_, by simp only [hr', Option.map_some']; rfl, ?_⟩
      show cycles (Event.newBedPlacer :: r'.trace) ≤ _
      have : cycles (Event.newBedPlacer :: r'.trace) = cycles r'.trace := by
        simp [cycles, List.countP_cons, Event.isCycle]
      rw [this]
      exact hle

open Speedrunbot in
/-- C15, at a concrete input: against a mob of health 3 that loses one point at every attack,
`hostileMobStrategy` run with a bound of 4 tests returns after at most 3 turns. -/
theorem C15_combat_loops_bounded_witness :
    ∃ r, CombatAI.hostileMobStrategy duelEnv { name := some "zombie", type := some "mob" } 4
        { world := 3, combat := { CombatAI.new with isInCombat := true }, startTime := none }
        = some r ∧ cycles r.trace ≤ 3 :=
  (C15_combat_loops_bounded duelEnv { name := some "zombie", type := some "mob" }).1.2.2.2
    (fun st => st.world) (fun _ => rfl)
    (fun s h => by
      have hpos : 0 < s.world := by
        have h0 : (0 : ℚ) < (s.world : ℚ) := h.1
        exact_mod_cast h0
      show s.world - 1 + 1 ≤ s.world
      omega)
    4 { world := 3, combat := { CombatAI.new with isInCombat := true }, startTime := none }
    (by decide)

end MCBot
